import Mathlib

/-!
# Verification of the NEAT evolutionary engine

A shallow embedding of the NEAT (NeuroEvolution of Augmenting Topologies)
implementation: the gene/genotype encoding with its process-wide innovation
registry (`genetics.py`), the crossover operator (`entity.py`), the species
genetic-distance metric (`specie.py`), the network decoder/evaluator
(`network.py`) and the rank-weighted parent sampling (`neat.py`).

Conventions of the embedding:
* Python dicts are insertion-ordered association lists (`List (κ × β)`).
* Python sets of node ids are `Finset Nat`.
* Randomness is passed explicitly: every `random.random()` draw becomes a
  rational parameter in `[0,1)`, every `random.choice` becomes an index
  parameter reduced modulo the length of the sequence it picks from.
* Machine floats become `ℚ`.  The two transcendental maps of the source
  (the steepness-4.9 logistic activation and the softmax/sigmoid output
  post-processing) are not rational; they are abstract function parameters,
  and every theorem below holds for an arbitrary choice of them.
* The process-wide `Gene.genetics` dict (which stores both `pair -> id set`
  and `id -> pair` entries) is a `Genetics` structure with the two mappings
  separated; id sets are kept as lists in insertion order (ids are minted
  in increasing order, matching the source comment "sets are ordered,
  innovation is always incremented").
-/

namespace NEAT

/-- Association-list lookup, mirroring Python `d[k]` / `k in d` on an
insertion-ordered dict. -/
def alGet? {κ β : Type} [DecidableEq κ] : List (κ × β) → κ → Option β
  | [], _ => none
  | (k, v) :: t, k' => if k = k' then some v else alGet? t k'

/-- Association-list store, mirroring Python `d[k] = v`: update in place when
the key is present, append otherwise. -/
def alSet {κ β : Type} [DecidableEq κ] : List (κ × β) → κ → β → List (κ × β)
  | [], k, v => [(k, v)]
  | (k0, v0) :: t, k, v =>
      if k0 = k then (k0, v) :: t else (k0, v0) :: alSet t k v

/-- Association-list deletion, mirroring Python `del d[k]` (keys are unique
in every dict the source builds, so filtering all occurrences of the key is
the same as deleting the one entry; Python raises `KeyError` on a missing
key, which never happens at the source's call sites). -/
def alErase {κ β : Type} [DecidableEq κ] (l : List (κ × β)) (k : κ) :
    List (κ × β) :=
  l.filter (fun p => p.1 ≠ k)

/-- In-place update of the value stored under a key, mirroring mutation of a
dict entry's value (`d[k].add(x)` and similar); no-op when the key is absent
(the source's call sites always have the key present; keys are unique in
every dict the source builds). -/
def alUpdate {κ β : Type} [DecidableEq κ] : List (κ × β) → κ → (β → β) →
    List (κ × β)
  | [], _, _ => []
  | (k0, v0) :: t, k, f =>
      if k0 = k then (k0, f v0) :: t else (k0, v0) :: alUpdate t k f

/-- Ascending enumeration of a finite set of node ids (Python iterates its
sets of small ints in increasing order): the naturals up to the set's
maximum, filtered by membership. -/
def sortedNodes (s : Finset Nat) : List Nat :=
  (List.range (s.sup id + 1)).filter (fun x => x ∈ s)

/-- `Gene` of `genetics.py`: one connection's innovation id and weight.
When no weight is given, `Gene.__init__` draws `random.random() - .5`; the
draw is the explicit parameter `r` of `insert_gene` below. -/
structure Gene where
  gene_id : Nat
  weight : ℚ
  deriving DecidableEq, Repr

/-- `Gene.copy`: a by-value clone of the gene. -/
def Gene.copy (g : Gene) : Gene := ⟨g.gene_id, g.weight⟩

/-- The process-wide registry held in the static `Gene.genetics` dict and the
static counter `Gene.innovation`.  `pairIds p` is the (insertion-ordered) set
of innovation ids recorded for the connection pair `p` (`[]` means the pair
was never seen); `idPair i` is the inverse direction. -/
structure Genetics where
  pairIds : Nat × Nat → List Nat
  idPair : Nat → Option (Nat × Nat)
  innovation : Nat

/-- `Genotype` of `genetics.py`: node-id sets, the gene dict keyed by
connection pair, and the routes dict of still-available targets per node. -/
structure Genotype where
  input_nodes : Finset Nat
  output_nodes : Finset Nat
  hidden_nodes : Finset Nat
  genes : List ((Nat × Nat) × Gene)
  routes : List (Nat × Finset Nat)

/-- `Genotype.__init__`: inputs `[0, input_num)`, outputs
`[input_num, input_num + output_num)`, no hidden nodes, no genes, and every
input node may route to every output node. -/
def Genotype.init (input_num output_num : Nat) : Genotype where
  input_nodes := Finset.range input_num
  output_nodes := Finset.Ico input_num (input_num + output_num)
  hidden_nodes := ∅
  genes := []
  routes :=
    (List.range input_num).map
      (fun b => (b, Finset.Ico input_num (input_num + output_num)))

/-- `Genotype.copy`: deep clone of node sets, genes (each gene cloned by
value via `Gene.copy`) and routes (each set copied). -/
def Genotype.copy (g : Genotype) : Genotype where
  input_nodes := g.input_nodes
  output_nodes := g.output_nodes
  hidden_nodes := g.hidden_nodes
  genes := g.genes.map (fun p => (p.1, p.2.copy))
  routes := g.routes.map (fun p => (p.1, p.2))

/-- Registry resolution performed at the top of `Genotype.insert_gene`
(lines 107-135 of `genetics.py`): reuse the first recorded id for the pair
that is not a hidden node of the inserting genotype, otherwise mint the next
counter value and record it in both directions. -/
def resolveId (st : Genetics) (hidden : Finset Nat) (conn : Nat × Nat) :
    Genetics × Nat :=
  if st.pairIds conn ≠ [] then
    -- connection between these nodes exists
    let aviable_ids := (st.pairIds conn).filter (fun i => i ∉ hidden)
    match aviable_ids.head? with
    | none =>
        -- every recorded id was consumed by a split in this genotype
        let new_id := st.innovation
        (⟨fun p => if p = conn then st.pairIds p ++ [new_id] else st.pairIds p,
          fun i => if i = new_id then some conn else st.idPair i,
          st.innovation + 1⟩, new_id)
    | some i => (st, i)
  else
    -- create new gene with innovation number
    let new_id := st.innovation
    (⟨fun p => if p = conn then [new_id] else st.pairIds p,
      fun i => if i = new_id then some conn else st.idPair i,
      st.innovation + 1⟩, new_id)

/-- `Genotype.insert_gene`: resolve or mint the innovation id for the pair,
remove the output node from the input node's routes, and store the new gene
under the pair.  `weight? = none` models the omitted-weight call, in which
case `Gene.__init__` uses `r - 1/2` for the draw `r` of `random.random()`. -/
def Genotype.insert_gene (st : Genetics) (g : Genotype) (conn : Nat × Nat)
    (weight? : Option ℚ) (r : ℚ) : Genetics × Genotype :=
  let res := resolveId st g.hidden_nodes conn
  let gene : Gene := ⟨res.2, weight?.getD (r - 1/2)⟩
  (res.1,
   { g with
     routes := alUpdate g.routes conn.1 (fun s => s.erase conn.2)
     genes := alSet g.genes conn gene })

/-- `Genotype.add_connection`: pick a node with a non-empty routes set, pick
a target from its routes, insert the gene.  No-op when the network is fully
connected.  `c1`, `c2` are the two `random.choice` draws (indices, reduced
modulo the candidate count); `r` is the weight draw inside `Gene.__init__`;
the set of candidate targets is enumerated in increasing order (`list(s)` on
a Python set of small ints). -/
def Genotype.add_connection (st : Genetics) (g : Genotype)
    (c1 c2 : Nat) (r : ℚ) : Genetics × Genotype :=
  let in_nodes := (g.routes.filter (fun p => p.2 ≠ ∅)).map Prod.fst
  if in_nodes = [] then
    -- network is fully connected
    (st, g)
  else
    let in_node := in_nodes.getD (c1 % in_nodes.length) 0
    let out_nodes := sortedNodes ((alGet? g.routes in_node).getD ∅)
    let out_node := out_nodes.getD (c2 % out_nodes.length) 0
    g.insert_gene st (in_node, out_node) none r

/-- `Genotype.intersect_connection`: split a randomly chosen gene.  The gene
is deleted, a hidden node with the gene's own id is created, the route it
used is restored, the new node is added to every routes set and given its
own routes (all hidden and output nodes), and the two replacement genes
`input -> node` (weight 1) and `node -> output` (weight of the removed gene)
are inserted.  No-op when there are no genes.  `c` is the `random.choice`
index over the gene keys. -/
def Genotype.intersect_connection (st : Genetics) (g : Genotype) (c : Nat) :
    Genetics × Genotype :=
  let connections := g.genes.map Prod.fst
  if connections = [] then
    -- there are no connections
    (st, g)
  else
    let conn := connections.getD (c % connections.length) (0, 0)
    -- the key comes from the gene dict, so the lookup always succeeds
    let gene := (alGet? g.genes conn).getD ⟨0, 0⟩
    let gene_id := gene.gene_id
    let conn_weight := gene.weight
    let g1 : Genotype := { g with genes := alErase g.genes conn }
    let in_node := conn.1
    let out_node := conn.2
    let key1 := (in_node, gene_id)
    let key2 := (gene_id, out_node)
    -- restore route
    let routes := alUpdate g1.routes in_node (fun s => insert out_node s)
    -- add new node to routes
    let routes := routes.map (fun p => (p.1, insert gene_id p.2))
    -- create routes for new node
    let routes := alSet routes gene_id (g.hidden_nodes ∪ g.output_nodes)
    let g2 : Genotype := { g1 with routes := routes }
    let s1 := Genotype.insert_gene st g2 key1 (some 1) 0
    let s2 := Genotype.insert_gene s1.1 s1.2 key2 (some conn_weight) 0
    (s2.1, { s2.2 with hidden_nodes := insert gene_id s2.2.hidden_nodes })

/-- The random draws consumed by one call of `Genotype.mutate`:
the gating draw of each of the three Bernoulli trials, the per-gene draws of
the weight step (`per_gene i` decides shift vs randomize for the i-th gene,
`shift i` is the `random.random()` inside `random_shift`/`randomize`), and
the choice/weight draws of the two structural operators. -/
structure MutRand where
  r_weight : ℚ
  per_gene : Nat → ℚ
  shift : Nat → ℚ
  r_conn : ℚ
  conn_c1 : Nat
  conn_c2 : Nat
  conn_r : ℚ
  r_node : ℚ
  node_c : Nat

/-- `Gene.random_shift` for draw `r`: `weight += r * 4 - 2`. -/
def Gene.random_shift (g : Gene) (r : ℚ) : Gene :=
  { g with weight := g.weight + (r * 4 - 2) }

/-- `Gene.randomize` for draw `r`: `weight = r * 4 - 2`. -/
def Gene.randomize (g : Gene) (r : ℚ) : Gene :=
  { g with weight := r * 4 - 2 }

/-- `Genotype.mutate`: with probability `weight_rate` perturb every gene's
weight (shift with probability .9, fresh random value otherwise); with
probability `connection_rate` add one connection; then — only if the genome
has at least one gene at this point — with probability `node_rate` split one
connection. -/
def Genotype.mutate (st : Genetics) (g : Genotype) (ρ : MutRand)
    (weight_rate connection_rate node_rate : ℚ) : Genetics × Genotype :=
  let g :=
    if ρ.r_weight < weight_rate then
      { g with
        genes := (g.genes.enum).map (fun p =>
          if ρ.per_gene p.1 < 9/10 then (p.2.1, p.2.2.random_shift (ρ.shift p.1))
          else (p.2.1, p.2.2.randomize (ρ.shift p.1))) }
    else g
  let s1 :=
    if ρ.r_conn < connection_rate then
      g.add_connection st ρ.conn_c1 ρ.conn_c2 ρ.conn_r
    else (st, g)
  if s1.2.genes = [] then
    -- no connections to split
    s1
  else if ρ.r_node < node_rate then
    Genotype.intersect_connection s1.1 s1.2 ρ.node_c
  else s1

/-- `Genotype.mutate` with the source's default rates
(`weight_rate=.8`, `connection_rate=.05`, `node_rate=.03`). -/
def Genotype.mutate_default (st : Genetics) (g : Genotype) (ρ : MutRand) :
    Genetics × Genotype :=
  Genotype.mutate st g ρ (8/10) (1/20) (3/100)

/-- `Entity` of `entity.py`: a genotype plus a nullable fitness. -/
structure Entity where
  genotype : Genotype
  fitness : Option ℚ

/-- The strict fitness comparison `self.fitness > entity.fitness` of
`Entity.mate`.  In the source both operands are plain numbers whenever
`mate` is invoked (entities are always tested first); comparison against an
unset fitness would raise in Python and is modeled as `false`. -/
def fitGt : Option ℚ → Option ℚ → Bool
  | some a, some b => a > b
  | _, _ => false

/-- `Entity.mate`: genotype1 is the fitter parent's genotype (the second
operand's on a tie, since the comparison is strict), the child starts as a
full copy of it, every gene whose key is present in both parents takes the
recessive parent's weight with probability .5 (`coin k` is the draw for the
matched key `k`), the child genotype is mutated with the default rates and
the child's fitness is unset. -/
def Entity.mate (st : Genetics) (e1 e2 : Entity)
    (coin : Nat × Nat → ℚ) (ρ : MutRand) : Genetics × Entity :=
  let genotype1 := if fitGt e1.fitness e2.fitness then e1.genotype else e2.genotype
  let genotype2 := if fitGt e1.fitness e2.fitness then e2.genotype else e1.genotype
  let child_gen := genotype1.copy
  -- genes replacement on the matched keys
  let child_gen : Genotype :=
    { child_gen with
      genes := child_gen.genes.map (fun p =>
        match alGet? genotype2.genes p.1 with
        | some g2 => if coin p.1 < 1/2 then (p.1, { p.2 with weight := g2.weight }) else p
        | none => p) }
  let s := Genotype.mutate_default st child_gen ρ
  (s.1, { genotype := s.2, fitness := none })

/-! ## Basic association-list lemmas -/

theorem alGet?_alSet_self {κ β : Type} [DecidableEq κ]
    (l : List (κ × β)) (k : κ) (v : β) : alGet? (alSet l k v) k = some v := by
  induction l with
  | nil => simp [alSet, alGet?]
  | cons h t ih =>
      by_cases hk : h.1 = k
      · simp [alSet, hk, alGet?]
      · simp [alSet, hk, alGet?, ih]

theorem alGet?_alSet_ne {κ β : Type} [DecidableEq κ]
    (l : List (κ × β)) (k k' : κ) (v : β) (h : k' ≠ k) :
    alGet? (alSet l k v) k' = alGet? l k' := by
  have hkk : ¬ k = k' := fun he => h he.symm
  induction l with
  | nil => simp [alSet, alGet?, hkk]
  | cons p t ih =>
      obtain ⟨pk, pv⟩ := p
      by_cases hk : pk = k
      · subst hk
        simp [alSet, alGet?, hkk]
      · simp [alSet, hk, alGet?, ih]

theorem alGet?_alErase_self {κ β : Type} [DecidableEq κ]
    (l : List (κ × β)) (k : κ) : alGet? (alErase l k) k = none := by
  induction l with
  | nil => rfl
  | cons p t ih =>
      obtain ⟨pk, pv⟩ := p
      by_cases hk : pk = k
      · simpa [alErase, List.filter_cons, hk] using ih
      · simpa [alErase, List.filter_cons, hk, alGet?] using ih

theorem alGet?_alErase_ne {κ β : Type} [DecidableEq κ]
    (l : List (κ × β)) (k k' : κ) (h : k' ≠ k) :
    alGet? (alErase l k) k' = alGet? l k' := by
  induction l with
  | nil => rfl
  | cons p t ih =>
      obtain ⟨pk, pv⟩ := p
      by_cases hk : pk = k
      · subst hk
        have hpk : ¬ pk = k' := fun he => h he.symm
        simpa [alErase, List.filter_cons, alGet?, hpk] using ih
      · by_cases hk' : pk = k'
        · simp [alErase, List.filter_cons, hk, alGet?, hk', h]
        · simpa [alErase, List.filter_cons, hk, alGet?, hk'] using ih

theorem alGet?_alUpdate_self {κ β : Type} [DecidableEq κ]
    (l : List (κ × β)) (k : κ) (f : β → β) :
    alGet? (alUpdate l k f) k = (alGet? l k).map f := by
  induction l with
  | nil => rfl
  | cons p t ih =>
      obtain ⟨pk, pv⟩ := p
      by_cases hk : pk = k
      · subst hk
        simp [alUpdate, alGet?]
      · simpa [alUpdate, hk, alGet?] using ih

theorem alGet?_alUpdate_ne {κ β : Type} [DecidableEq κ]
    (l : List (κ × β)) (k k' : κ) (f : β → β) (h : k' ≠ k) :
    alGet? (alUpdate l k f) k' = alGet? l k' := by
  induction l with
  | nil => rfl
  | cons p t ih =>
      obtain ⟨pk, pv⟩ := p
      by_cases hk : pk = k
      · subst hk
        have hpk : ¬ pk = k' := fun he => h he.symm
        simp [alUpdate, alGet?, hpk]
      · by_cases hk' : pk = k'
        · simp [alUpdate, hk, alGet?, hk', h]
        · simpa [alUpdate, hk, alGet?, hk'] using ih

theorem alGet?_isSome_of_mem_keys {κ β : Type} [DecidableEq κ]
    (l : List (κ × β)) (k : κ) (h : k ∈ l.map Prod.fst) :
    (alGet? l k).isSome := by
  induction l with
  | nil => simp at h
  | cons p t ih =>
      by_cases hk : p.1 = k
      · simp [alGet?, hk]
      · rw [List.map_cons, List.mem_cons] at h
        rcases h with h | h
        · exact absurd h.symm hk
        · simpa [alGet?, hk] using ih h

/-! ## C1: registry resolution -/

/-- When the pair was never seen, `resolveId` mints the counter value. -/
theorem resolveId_not_seen (st : Genetics) (hidden : Finset Nat)
    (conn : Nat × Nat) (h : st.pairIds conn = []) :
    resolveId st hidden conn =
      (⟨fun p => if p = conn then [st.innovation] else st.pairIds p,
        fun i => if i = st.innovation then some conn else st.idPair i,
        st.innovation + 1⟩, st.innovation) := by
  simp [resolveId, h]

theorem head?_filter_eq_find? {α : Type} (p : α → Bool) (l : List α) :
    (l.filter p).head? = l.find? p := by
  induction l with
  | nil => rfl
  | cons a t ih =>
      by_cases h : p a
      · simp [List.filter_cons, h, List.find?_cons, ih]
      · simp only [List.filter_cons, h, if_neg, Bool.false_eq_true,
          List.find?_cons]
        simp [h, ih]

/-- When the pair is on record and some recorded id is not hidden,
`resolveId` reuses the first such id and leaves the registry unchanged. -/
theorem resolveId_reuse (st : Genetics) (hidden : Finset Nat)
    (conn : Nat × Nat) (a : Nat)
    (h : ((st.pairIds conn).filter (fun i => i ∉ hidden)).head? = some a) :
    resolveId st hidden conn = (st, a) := by
  have hne : st.pairIds conn ≠ [] := by
    intro he
    simp [he] at h
  rw [head?_filter_eq_find?] at h
  simp only [decide_not] at h
  simp [resolveId, hne, h]

/-- If no recorded id for the pair is hidden, the filter inside `resolveId`
keeps the whole record. -/
theorem filter_not_hidden_eq_self (l : List Nat) (hidden : Finset Nat)
    (h : ∀ i ∈ l, i ∉ hidden) : l.filter (fun i => i ∉ hidden) = l := by
  apply List.filter_eq_self.2
  intro a ha
  simpa using h a ha

/-- The registry part of `insert_gene` is exactly `resolveId`. -/
theorem insert_gene_fst (st : Genetics) (g : Genotype) (conn : Nat × Nat)
    (w : Option ℚ) (r : ℚ) :
    (g.insert_gene st conn w r).1 = (resolveId st g.hidden_nodes conn).1 := rfl

/-- The gene stored by `insert_gene` under the pair carries the resolved id
and the given (or drawn) weight. -/
theorem insert_gene_stored (st : Genetics) (g : Genotype) (conn : Nat × Nat)
    (w : Option ℚ) (r : ℚ) :
    alGet? (g.insert_gene st conn w r).2.genes conn =
      some ⟨(resolveId st g.hidden_nodes conn).2, w.getD (r - 1/2)⟩ := by
  simp [Genotype.insert_gene, alGet?_alSet_self]

/-- C1: (a) if `insert_gene` is invoked on the same pair in two genotypes,
one call after the other, and no id on record for the pair (at the time of
each call) is a hidden node of the respective inserting genotype, both
stored genes carry the same innovation id; (b) a call of `insert_gene`
advances the process-wide innovation counter — i.e. mints a fresh id —
exactly when the pair was never seen or every id on record for the pair is
a hidden node of the inserting genotype. -/
theorem insert_gene_innovation_identity :
    (∀ (st : Genetics) (g1 g2 : Genotype) (conn : Nat × Nat)
        (w1 w2 : Option ℚ) (r1 r2 : ℚ),
      (∀ i ∈ st.pairIds conn, i ∉ g1.hidden_nodes) →
      (∀ i ∈ (g1.insert_gene st conn w1 r1).1.pairIds conn,
          i ∉ g2.hidden_nodes) →
      (alGet? (g1.insert_gene st conn w1 r1).2.genes conn).map Gene.gene_id =
        (alGet? (g2.insert_gene (g1.insert_gene st conn w1 r1).1 conn
            w2 r2).2.genes conn).map Gene.gene_id) ∧
    (∀ (st : Genetics) (g : Genotype) (conn : Nat × Nat)
        (w : Option ℚ) (r : ℚ),
      (g.insert_gene st conn w r).1.innovation = st.innovation + 1 ↔
        (st.pairIds conn = [] ∨ ∀ i ∈ st.pairIds conn, i ∈ g.hidden_nodes)) := by
  constructor
  · intro st g1 g2 conn w1 w2 r1 r2 h1 h2
    rw [insert_gene_stored, insert_gene_stored, insert_gene_fst]
    rw [insert_gene_fst] at h2
    by_cases hc : st.pairIds conn = []
    · rw [resolveId_not_seen st g1.hidden_nodes conn hc]
      rw [resolveId_not_seen st g1.hidden_nodes conn hc] at h2
      simp only at h2
      have hmem : st.innovation ∉ g2.hidden_nodes := by
        apply h2
        simp
      have : resolveId
          (⟨fun p => if p = conn then [st.innovation] else st.pairIds p,
            fun i => if i = st.innovation then some conn else st.idPair i,
            st.innovation + 1⟩ : Genetics) g2.hidden_nodes conn =
          (⟨fun p => if p = conn then [st.innovation] else st.pairIds p,
            fun i => if i = st.innovation then some conn else st.idPair i,
            st.innovation + 1⟩, st.innovation) := by
        apply resolveId_reuse
        simp [hmem]
      rw [this]
      simp
    · have hfil1 := filter_not_hidden_eq_self _ g1.hidden_nodes h1
      obtain ⟨a, t, hat⟩ := List.exists_cons_of_ne_nil hc
      have hr1 : resolveId st g1.hidden_nodes conn = (st, a) := by
        apply resolveId_reuse
        rw [hfil1, hat]
        rfl
      rw [hr1]
      rw [hr1] at h2
      simp only at h2
      have hfil2 := filter_not_hidden_eq_self _ g2.hidden_nodes h2
      have hr2 : resolveId st g2.hidden_nodes conn = (st, a) := by
        apply resolveId_reuse
        rw [hfil2, hat]
        rfl
      rw [hr2]
      simp
  · intro st g conn w r
    rw [show (g.insert_gene st conn w r).1.innovation =
        (resolveId st g.hidden_nodes conn).1.innovation from rfl]
    by_cases hc : st.pairIds conn = []
    · rw [resolveId_not_seen st g.hidden_nodes conn hc]
      simp [hc]
    · rcases hh : ((st.pairIds conn).filter
          (fun i => i ∉ g.hidden_nodes)).head? with _ | a
      · have hfil : (st.pairIds conn).filter
            (fun i => i ∉ g.hidden_nodes) = [] :=
          List.head?_eq_none_iff.1 hh
        have hall : ∀ i ∈ st.pairIds conn, i ∈ g.hidden_nodes := by
          intro i hi
          by_contra hni
          have : i ∈ (st.pairIds conn).filter
              (fun i => i ∉ g.hidden_nodes) := by
            simp [List.mem_filter, hi, hni]
          rw [hfil] at this
          simp at this
        constructor
        · intro
          exact Or.inr hall
        · intro
          simp only [resolveId, hc, ne_eq, not_false_iff, if_true]
          rw [head?_filter_eq_find?] at hh
          simp only [decide_not] at hh
          simp [hh]
      · rw [resolveId_reuse st g.hidden_nodes conn a hh]
        constructor
        · intro habs
          exact absurd habs (Nat.ne_of_lt (Nat.lt_succ_self _))
        · intro hd
          rcases hd with hd | hd
          · exact absurd hd hc
          · have ha := List.mem_of_mem_head? hh
            have := List.mem_filter.1 ha
            simp only [decide_not, Bool.not_eq_true'] at this
            exact absurd (hd a this.1) (by simpa using this.2)

/-- Witness for C1 at a concrete input: a fresh registry with counter 3,
the pair `(0,2)` inserted into two founder genotypes in turn. -/
theorem insert_gene_innovation_identity_witness :
    (alGet? ((Genotype.init 2 1).insert_gene ⟨fun _ => [], fun _ => none, 3⟩
        (0, 2) none 0).2.genes (0, 2)).map Gene.gene_id =
      (alGet? ((Genotype.init 2 1).insert_gene
          ((Genotype.init 2 1).insert_gene ⟨fun _ => [], fun _ => none, 3⟩
            (0, 2) none 0).1 (0, 2) none 0).2.genes (0, 2)).map Gene.gene_id :=
  insert_gene_innovation_identity.1 ⟨fun _ => [], fun _ => none, 3⟩
    (Genotype.init 2 1) (Genotype.init 2 1) (0, 2) none none 0 0
    (fun i hi => by simp at hi) (fun i _ => Finset.not_mem_empty i)

/-! ## C2: connection splitting -/

/-- Well-formedness of the process-wide registry: every recorded id points
back to its pair and lies below the counter.  This holds of the run's
initial registry and is preserved by every `insert_gene` call. -/
def RegWF (st : Genetics) : Prop :=
  ∀ p x, x ∈ st.pairIds p → st.idPair x = some p ∧ x < st.innovation

/-- When every recorded id for a seen pair is hidden, `resolveId` mints. -/
theorem resolveId_all_consumed (st : Genetics) (hidden : Finset Nat)
    (conn : Nat × Nat) (hne : st.pairIds conn ≠ [])
    (hh : ((st.pairIds conn).filter (fun i => i ∉ hidden)).head? = none) :
    resolveId st hidden conn =
      (⟨fun p => if p = conn then st.pairIds p ++ [st.innovation]
          else st.pairIds p,
        fun i => if i = st.innovation then some conn else st.idPair i,
        st.innovation + 1⟩, st.innovation) := by
  rw [head?_filter_eq_find?] at hh
  simp only [decide_not] at hh
  simp [resolveId, hne, hh]

/-- Case analysis for `resolveId`: either it mints the counter value
(recording it for the pair in both directions) or it returns an unconsumed
recorded id and leaves the registry untouched. -/
theorem resolveId_mint_or_reuse (st : Genetics) (hidden : Finset Nat)
    (conn : Nat × Nat) :
    ((resolveId st hidden conn).2 = st.innovation ∧
      (resolveId st hidden conn).1.innovation = st.innovation + 1 ∧
      (∀ p, p ≠ conn → (resolveId st hidden conn).1.pairIds p = st.pairIds p) ∧
      (∀ x, x ≠ st.innovation →
        (resolveId st hidden conn).1.idPair x = st.idPair x) ∧
      (resolveId st hidden conn).1.idPair st.innovation = some conn ∧
      (resolveId st hidden conn).1.pairIds conn =
        st.pairIds conn ++ [st.innovation]) ∨
    ((resolveId st hidden conn).1 = st ∧
      (resolveId st hidden conn).2 ∈ st.pairIds conn ∧
      (resolveId st hidden conn).2 ∉ hidden) := by
  by_cases hc : st.pairIds conn = []
  · left
    rw [resolveId_not_seen st hidden conn hc]
    refine ⟨rfl, rfl, ?_, ?_, ?_, ?_⟩
    · intro p hp
      simp [hp]
    · intro x hx
      simp [hx]
    · simp
    · simp [hc]
  · rcases hh : ((st.pairIds conn).filter (fun i => i ∉ hidden)).head? with _ | a
    · left
      rw [resolveId_all_consumed st hidden conn hc hh]
      refine ⟨rfl, rfl, ?_, ?_, ?_, ?_⟩
      · intro p hp
        simp [hp]
      · intro x hx
        simp [hx]
      · simp
      · simp
    · right
      rw [resolveId_reuse st hidden conn a hh]
      have ha := List.mem_of_mem_head? hh
      have := List.mem_filter.1 ha
      refine ⟨rfl, this.1, ?_⟩
      simpa using this.2

/-- `resolveId` preserves registry well-formedness. -/
theorem RegWF_resolveId (st : Genetics) (hidden : Finset Nat)
    (conn : Nat × Nat) (hwf : RegWF st) :
    RegWF (resolveId st hidden conn).1 := by
  rcases resolveId_mint_or_reuse st hidden conn with
    ⟨_, hinn, hp, hx, hidp, hpc⟩ | ⟨heq, _, _⟩
  · intro p x hxm
    by_cases hpc' : p = conn
    · subst hpc'
      rw [hpc] at hxm
      rcases List.mem_append.1 hxm with hold | hnew
      · have hw := hwf p x hold
        constructor
        · rw [hx x (Nat.ne_of_lt hw.2)]
          exact hw.1
        · rw [hinn]
          exact Nat.lt_succ_of_lt hw.2
      · have hxe : x = st.innovation := by simpa using hnew
        subst hxe
        exact ⟨hidp, by rw [hinn]; exact Nat.lt_succ_self _⟩
    · rw [hp p hpc'] at hxm
      have hw := hwf p x hxm
      constructor
      · rw [hx x (Nat.ne_of_lt hw.2)]
        exact hw.1
      · rw [hinn]
        exact Nat.lt_succ_of_lt hw.2
  · rw [heq]
    exact hwf

/-- Two successive resolutions on distinct pairs (against a well-formed
registry) never return the same id. -/
theorem resolveId_seq_ne (st : Genetics) (hidden : Finset Nat)
    (p q : Nat × Nat) (hpq : q ≠ p) (hwf : RegWF st) :
    (resolveId (resolveId st hidden p).1 hidden q).2 ≠
      (resolveId st hidden p).2 := by
  rcases resolveId_mint_or_reuse st hidden p with
    ⟨ha, hinn, hp, _, _, _⟩ | ⟨heq, hap, _⟩
  · rcases resolveId_mint_or_reuse (resolveId st hidden p).1 hidden q with
      hm2 | hr2
    · rw [hm2.1, hinn, ha]
      exact Nat.succ_ne_self _
    · have hbq : (resolveId (resolveId st hidden p).1 hidden q).2 ∈
          st.pairIds q := by
        rw [← hp q hpq]
        exact hr2.2.1
      rw [ha]
      exact Nat.ne_of_lt (hwf q _ hbq).2
  · have hwa := hwf p _ hap
    rcases resolveId_mint_or_reuse (resolveId st hidden p).1 hidden q with
      hm2 | hr2
    · rw [hm2.1, heq]
      intro habs
      rw [habs] at hwa
      exact absurd hwa.2 (lt_irrefl _)
    · have hbq := hr2.2.1
      intro habs
      rw [habs, heq] at hbq
      have hwb := hwf q _ hbq
      have : some q = some p := by rw [← hwb.1, hwa.1]
      exact hpq (Option.some.inj this)

theorem alGet?_map_snd {κ β : Type} [DecidableEq κ]
    (l : List (κ × β)) (f : β → β) (j : κ) :
    alGet? (l.map (fun p => (p.1, f p.2))) j = (alGet? l j).map f := by
  induction l with
  | nil => rfl
  | cons p t ih =>
      obtain ⟨pk, pv⟩ := p
      by_cases hk : pk = j
      · simp [alGet?, hk]
      · simpa [alGet?, hk] using ih

/-- Unfolding of `intersect_connection` on a non-empty genome, in terms of
the chosen connection and its gene. -/
theorem intersect_connection_eq (st : Genetics) (g : Genotype) (c : Nat)
    (conn : Nat × Nat) (gene : Gene)
    (hne : g.genes ≠ [])
    (hconn : (g.genes.map Prod.fst).getD
      (c % (g.genes.map Prod.fst).length) (0, 0) = conn)
    (hget : alGet? g.genes conn = some gene) :
    Genotype.intersect_connection st g c =
      ((resolveId (resolveId st g.hidden_nodes (conn.1, gene.gene_id)).1
          g.hidden_nodes (gene.gene_id, conn.2)).1,
       { input_nodes := g.input_nodes
         output_nodes := g.output_nodes
         hidden_nodes := insert gene.gene_id g.hidden_nodes
         genes := alSet (alSet (alErase g.genes conn) (conn.1, gene.gene_id)
             ⟨(resolveId st g.hidden_nodes (conn.1, gene.gene_id)).2, 1⟩)
           (gene.gene_id, conn.2)
           ⟨(resolveId (resolveId st g.hidden_nodes
               (conn.1, gene.gene_id)).1
               g.hidden_nodes (gene.gene_id, conn.2)).2, gene.weight⟩
         routes := alUpdate (alUpdate (alSet ((alUpdate g.routes conn.1
             (fun s => insert conn.2 s)).map
               (fun p => (p.1, insert gene.gene_id p.2)))
             gene.gene_id (g.hidden_nodes ∪ g.output_nodes))
           conn.1 (fun s => s.erase gene.gene_id))
           gene.gene_id (fun s => s.erase conn.2) }) := by
  have hmap : ¬ g.genes.map Prod.fst = [] := by
    simpa using hne
  simp only [Genotype.intersect_connection, hmap, if_false, hconn, hget,
    Option.getD_some, Genotype.insert_gene]

/-- Run prefix used for the split counterexample: a run over 2 inputs and
1 output (registry counter starts at `2 + 1 = 3` as `NEAT.__init__` sets
it), the pair `(0,2)` inserted into two founder genotypes (they share the
innovation id 3), then the first genotype splits its gene. -/
def reg0 : Genetics := ⟨fun _ => [], fun _ => none, 3⟩

/-- First founder's insertion of the pair `(0,2)`. -/
def stepA : Genetics × Genotype :=
  (Genotype.init 2 1).insert_gene reg0 (0, 2) none 0

/-- Second founder's insertion of the same pair. -/
def stepB : Genetics × Genotype :=
  (Genotype.init 2 1).insert_gene stepA.1 (0, 2) none 0

/-- The first genotype splits its only gene (innovation id 3). -/
def splitA : Genetics × Genotype :=
  Genotype.intersect_connection stepB.1 stepA.2 0

/-- The second genotype then splits its own copy of the gene. -/
def splitB : Genetics × Genotype :=
  Genotype.intersect_connection splitA.1 stepB.2 0

/-- C2 counterexample: when the second genotype splits the gene that the
first genotype already split, the two replacement genes receive the ids 4
and 5 that were already on record (minted during the first split) — the
innovation counter does not move, so the ids are not freshly minted as the
claim states. -/
theorem intersect_connection_fresh_mint_counterexample :
    (alGet? splitB.2.genes (0, 3)).map Gene.gene_id = some 4 ∧
    (alGet? splitB.2.genes (3, 2)).map Gene.gene_id = some 5 ∧
    (4 : Nat) ∈ splitA.1.pairIds (0, 3) ∧
    (5 : Nat) ∈ splitA.1.pairIds (3, 2) ∧
    splitB.1.innovation = splitA.1.innovation := by
  decide

/-- C2 (amended): `intersect_connection` is a no-op on a genome without
genes; otherwise, for the chosen gene `(i,o)` with innovation id `k`
(with `k` distinct from both endpoints, as every reachable genotype
guarantees), it removes that gene, creates the hidden node `k`, stores the
gene `(i,k)` with weight 1 and the gene `(k,o)` with the removed gene's
weight, whose resolved ids are distinct from each other and freshly minted
precisely when the registry requires it (in particular both fresh when both
pairs are new); it restores `o` into `i`'s routes, adds `k` to every other
node's routes, and seeds `k`'s routes with all hidden and output nodes
(minus `o`, which the new gene `(k,o)` consumes). -/
theorem intersect_connection_amended :
    (∀ (st : Genetics) (g : Genotype) (c : Nat),
      g.genes = [] → Genotype.intersect_connection st g c = (st, g)) ∧
    (∀ (st : Genetics) (g : Genotype) (c : Nat) (conn : Nat × Nat)
        (gene : Gene),
      RegWF st → g.genes ≠ [] →
      (g.genes.map Prod.fst).getD
        (c % (g.genes.map Prod.fst).length) (0, 0) = conn →
      alGet? g.genes conn = some gene →
      gene.gene_id ≠ conn.1 → gene.gene_id ≠ conn.2 →
      (Genotype.intersect_connection st g c).2.hidden_nodes =
          insert gene.gene_id g.hidden_nodes ∧
      alGet? (Genotype.intersect_connection st g c).2.genes conn = none ∧
      (∃ id1 id2 : Nat,
        alGet? (Genotype.intersect_connection st g c).2.genes
            (conn.1, gene.gene_id) = some ⟨id1, 1⟩ ∧
        alGet? (Genotype.intersect_connection st g c).2.genes
            (gene.gene_id, conn.2) = some ⟨id2, gene.weight⟩ ∧
        id1 ≠ id2 ∧
        (st.pairIds (conn.1, gene.gene_id) = [] →
          st.pairIds (gene.gene_id, conn.2) = [] →
          id1 = st.innovation ∧ id2 = st.innovation + 1)) ∧
      ((alGet? g.routes conn.1).isSome →
        conn.2 ∈ (alGet? (Genotype.intersect_connection st g c).2.routes
          conn.1).getD ∅) ∧
      (∀ j, j ≠ conn.1 → j ≠ gene.gene_id → (alGet? g.routes j).isSome →
        gene.gene_id ∈ (alGet? (Genotype.intersect_connection st g c).2.routes
          j).getD ∅) ∧
      alGet? (Genotype.intersect_connection st g c).2.routes gene.gene_id =
        some ((g.hidden_nodes ∪ g.output_nodes).erase conn.2)) := by
  constructor
  · intro st g c hg
    simp [Genotype.intersect_connection, hg]
  · intro st g c conn gene hwf hne hconn hget hki hko
    have hkey21 : (gene.gene_id, conn.2) ≠ (conn.1, gene.gene_id) := by
      intro habs
      exact hki (congrArg Prod.fst habs)
    have hkey12 : (conn.1, gene.gene_id) ≠ (gene.gene_id, conn.2) :=
      fun habs => hkey21 habs.symm
    have hconn1 : conn ≠ (conn.1, gene.gene_id) := by
      intro habs
      exact hko (congrArg Prod.snd habs).symm
    have hconn2 : conn ≠ (gene.gene_id, conn.2) := by
      intro habs
      exact hki (congrArg Prod.fst habs).symm
    have hik : conn.1 ≠ gene.gene_id := fun h => hki h.symm
    have hok : conn.2 ≠ gene.gene_id := fun h => hko h.symm
    rw [intersect_connection_eq st g c conn gene hne hconn hget]
    refine ⟨rfl, ?_, ?_, ?_, ?_, ?_⟩
    · rw [alGet?_alSet_ne _ _ _ _ hconn2, alGet?_alSet_ne _ _ _ _ hconn1,
        alGet?_alErase_self]
    · refine ⟨(resolveId st g.hidden_nodes (conn.1, gene.gene_id)).2,
        (resolveId (resolveId st g.hidden_nodes (conn.1, gene.gene_id)).1
          g.hidden_nodes (gene.gene_id, conn.2)).2, ?_, ?_, ?_, ?_⟩
      · rw [alGet?_alSet_ne _ _ _ _ hkey12, alGet?_alSet_self]
      · rw [alGet?_alSet_self]
      · exact (resolveId_seq_ne st g.hidden_nodes (conn.1, gene.gene_id)
          (gene.gene_id, conn.2) hkey21 hwf).symm
      · intro hp1 hp2
        rcases resolveId_mint_or_reuse st g.hidden_nodes
            (conn.1, gene.gene_id) with hm1 | hr1
        · rcases resolveId_mint_or_reuse
              (resolveId st g.hidden_nodes (conn.1, gene.gene_id)).1
              g.hidden_nodes (gene.gene_id, conn.2) with hm2 | hr2
          · refine ⟨hm1.1, ?_⟩
            rw [hm2.1, hm1.2.1]
          · exfalso
            have := hr2.2.1
            rw [hm1.2.2.1 _ hkey21, hp2] at this
            simp at this
        · exfalso
          have := hr1.2.1
          rw [hp1] at this
          simp at this
    · intro hsome
      rcases Option.isSome_iff_exists.1 hsome with ⟨s, hs⟩
      rw [alGet?_alUpdate_ne _ _ _ _ hik, alGet?_alUpdate_self,
        alGet?_alSet_ne _ _ _ _ hik, alGet?_map_snd, alGet?_alUpdate_self,
        hs]
      simp [Finset.mem_erase, hok]
    · intro j hji hjk hsome
      rcases Option.isSome_iff_exists.1 hsome with ⟨s, hs⟩
      rw [alGet?_alUpdate_ne _ _ _ _ hjk, alGet?_alUpdate_ne _ _ _ _ hji,
        alGet?_alSet_ne _ _ _ _ hjk, alGet?_map_snd,
        alGet?_alUpdate_ne _ _ _ _ hji, hs]
      simp
    · rw [alGet?_alUpdate_self, alGet?_alUpdate_ne _ _ _ _ hki,
        alGet?_alSet_self]
      rfl

/-- Witness for the amended C2 at a concrete input: a genotype holding the
single gene `(0,2)` with innovation id 3 against a fresh registry. -/
theorem intersect_connection_amended_witness :
    (Genotype.intersect_connection reg0
        { input_nodes := Finset.range 2
          output_nodes := Finset.Ico 2 3
          hidden_nodes := ∅
          genes := [((0, 2), ⟨3, 5⟩)]
          routes := [(0, ∅), (1, {2})] } 0).2.hidden_nodes =
      insert 3 (∅ : Finset Nat) :=
  (intersect_connection_amended.2 reg0
    { input_nodes := Finset.range 2
      output_nodes := Finset.Ico 2 3
      hidden_nodes := ∅
      genes := [((0, 2), ⟨3, 5⟩)]
      routes := [(0, ∅), (1, {2})] } 0 (0, 2) ⟨3, 5⟩
    (fun p x hx => absurd hx (by simp [reg0]))
    (by simp) (by decide) (by decide) (by decide) (by decide)).1

/-! ## C4: species genetic distance -/

/-- The historical marker `specie.py` uses for a gene key:
`next(iter(genetics[g]))`, the first recorded id of the pair (pairs of genes
are always registered; the default 0 is never reached at the call sites). -/
def marker (st : Genetics) (g : Nat × Nat) : Nat := (st.pairIds g).headD 0

/-- The accumulator loop of `get_genetic_distance`
(`for m, c in markers_conns2`), collecting
(excess, disjoint, summed weight difference, match count). -/
def distLoop (markers1 : List Nat) (max_base_marker : Nat)
    (genes1 genes2 : List ((Nat × Nat) × Gene)) :
    List (Nat × (Nat × Nat)) → Nat × Nat × ℚ × Nat → Nat × Nat × ℚ × Nat
  | [], acc => acc
  | (m, c) :: t, (ex, di, wd, mn) =>
      if m ∉ markers1 then
        if max_base_marker < m then
          distLoop markers1 max_base_marker genes1 genes2 t (ex + 1, di, wd, mn)
        else
          distLoop markers1 max_base_marker genes1 genes2 t (ex, di + 1, wd, mn)
      else
        distLoop markers1 max_base_marker genes1 genes2 t
          (ex, di,
           wd + |((alGet? genes1 c).getD ⟨0, 0⟩).weight -
             ((alGet? genes2 c).getD ⟨0, 0⟩).weight|,
           mn + 1)

/-- `Specie.get_genetic_distance` of `specie.py`: marker-alignment distance
between the species representative's genotype `rep` (= the genes of
`self.entities[0]`) and a candidate's genotype `cand`, with weights
`c1, c2, c3`.  Python's marker sets are modeled as dedup'd lists. -/
def get_genetic_distance (st : Genetics) (rep cand : Genotype)
    (c1 c2 c3 : ℚ) : ℚ :=
  let genes1 := rep.genes
  let genes2 := cand.genes
  let markers_conns2 := (genes2.map (fun p => (marker st p.1, p.1))).dedup
  let markers1 := (genes1.map (fun p => marker st p.1)).dedup
  let markers2 := (markers_conns2.map Prod.fst).dedup
  let max_base_marker := if markers1 = [] then 0 else markers1.foldr max 0
  let nf0 := max markers1.length markers2.length
  let normalization_factor := if nf0 < 20 then 1 else nf0
  let acc := distLoop markers1 max_base_marker genes1 genes2 markers_conns2
    (0, 0, 0, 0)
  let excess_num := acc.1
  let disjoint_num := acc.2.1 + markers1.countP (fun m => m ∉ markers2)
  let weight_dif := acc.2.2.1
  let match_num := acc.2.2.2
  let we : ℚ := if 0 < match_num then weight_dif / match_num else 0
  c1 * excess_num / normalization_factor +
    c2 * disjoint_num / normalization_factor + c3 * we

/-- The distance formula in the words of the specification ("excess counts
candidate-only markers greater than the representative's greatest marker,
disjoint counts all other one-sided markers on either side, N is the larger
of the two genomes' marker counts clamped to 1 when below 20, and
meanWeightDiff is the mean of |w1 - w2| over matching markers"). -/
def distanceSpec (st : Genetics) (rep cand : Genotype)
    (c1 c2 c3 : ℚ) : ℚ :=
  let M1 := rep.genes.map (fun p => marker st p.1)
  let M2 := cand.genes.map (fun p => marker st p.1)
  let maxB := if M1 = [] then 0 else M1.foldr max 0
  let n0 := max M1.length M2.length
  let n : Nat := if n0 < 20 then 1 else n0
  let ex : ℚ := (M2.countP (fun m => m ∉ M1 ∧ maxB < m) : ℚ)
  let di : ℚ := ((M2.countP (fun m => m ∉ M1 ∧ ¬ maxB < m) +
    M1.countP (fun m => m ∉ M2) : Nat) : ℚ)
  let matched := (cand.genes.map Prod.fst).filter (fun k => marker st k ∈ M1)
  let mw : ℚ :=
    if 0 < matched.length then
      ((matched.map (fun k => |((alGet? rep.genes k).getD ⟨0, 0⟩).weight -
          ((alGet? cand.genes k).getD ⟨0, 0⟩).weight|)).sum) / matched.length
    else 0
  c1 * ex / (n : ℚ) + c2 * di / (n : ℚ) + c3 * mw

/-- Closed form of the accumulator loop. -/
theorem distLoop_spec (markers1 : List Nat) (mb : Nat)
    (genes1 genes2 : List ((Nat × Nat) × Gene))
    (l : List (Nat × (Nat × Nat))) (ex di : Nat) (wd : ℚ) (mn : Nat) :
    distLoop markers1 mb genes1 genes2 l (ex, di, wd, mn) =
      (ex + l.countP (fun p => decide (p.1 ∉ markers1 ∧ mb < p.1)),
       di + l.countP (fun p => decide (p.1 ∉ markers1 ∧ ¬ mb < p.1)),
       wd + ((l.filter (fun p => p.1 ∈ markers1)).map
         (fun p => |((alGet? genes1 p.2).getD ⟨0, 0⟩).weight -
           ((alGet? genes2 p.2).getD ⟨0, 0⟩).weight|)).sum,
       mn + l.countP (fun p => decide (p.1 ∈ markers1))) := by
  induction l generalizing ex di wd mn with
  | nil => simp [distLoop]
  | cons h t ih =>
      obtain ⟨m, c⟩ := h
      by_cases hm : m ∈ markers1
      · rw [show distLoop markers1 mb genes1 genes2 ((m, c) :: t)
            (ex, di, wd, mn) = distLoop markers1 mb genes1 genes2 t
            (ex, di,
             wd + |((alGet? genes1 c).getD ⟨0, 0⟩).weight -
               ((alGet? genes2 c).getD ⟨0, 0⟩).weight|, mn + 1) by
          simp [distLoop, hm]]
        rw [ih]
        simp [List.countP_cons, List.filter_cons, hm, List.map_cons]
        constructor
        · ring
        · ring
      · by_cases hmb : mb < m
        · rw [show distLoop markers1 mb genes1 genes2 ((m, c) :: t)
              (ex, di, wd, mn) = distLoop markers1 mb genes1 genes2 t
              (ex + 1, di, wd, mn) by simp [distLoop, hm, hmb]]
          rw [ih]
          simp [List.countP_cons, List.filter_cons, hm, hmb]
          ring
        · rw [show distLoop markers1 mb genes1 genes2 ((m, c) :: t)
              (ex, di, wd, mn) = distLoop markers1 mb genes1 genes2 t
              (ex, di + 1, wd, mn) by simp [distLoop, hm, hmb]]
          rw [ih]
          have hle := Nat.not_lt.1 hmb
          simp [List.countP_cons, List.filter_cons, hm, hmb, hle]
          ring

/-- Generic refinement: under set semantics of the marker collections (no
duplicate markers, which registry well-formedness guarantees), the distance
loop computes exactly the specification's formula. -/
theorem distance_eq_spec (st : Genetics) (rep cand : Genotype)
    (c1 c2 c3 : ℚ)
    (h1 : (rep.genes.map (fun p => marker st p.1)).Nodup)
    (h2 : (cand.genes.map (fun p => marker st p.1)).Nodup) :
    get_genetic_distance st rep cand c1 c2 c3 =
      distanceSpec st rep cand c1 c2 c3 := by
  have hcomp : (Prod.fst ∘ fun p : (Nat × Nat) × Gene =>
      (marker st p.1, p.1)) = fun p : (Nat × Nat) × Gene =>
      marker st p.1 := rfl
  have hpnd : (cand.genes.map
      (fun p => (marker st p.1, p.1))).Nodup := by
    apply List.Nodup.of_map Prod.fst
    rw [List.map_map, hcomp]
    exact h2
  have hd2p : (cand.genes.map
      (fun p => (marker st p.1, p.1))).dedup =
      cand.genes.map (fun p => (marker st p.1, p.1)) :=
    List.dedup_eq_self.2 hpnd
  have hd1 : (rep.genes.map (fun p => marker st p.1)).dedup =
      rep.genes.map (fun p => marker st p.1) :=
    List.dedup_eq_self.2 h1
  have hd2 : (cand.genes.map (fun p => marker st p.1)).dedup =
      cand.genes.map (fun p => marker st p.1) :=
    List.dedup_eq_self.2 h2
  simp only [get_genetic_distance, distanceSpec, hd2p, hd1,
    List.map_map, hcomp, hd2]
  rw [distLoop_spec]
  simp only [Nat.zero_add, zero_add, List.countP_map, List.filter_map,
    List.map_map, List.countP_eq_length_filter, List.length_map,
    Function.comp]
  rfl

/-- Scenario registry: the single pair `(0,2)` is on record with id 3. -/
def scenSt : Genetics :=
  ⟨fun p => if p = (0, 2) then [3] else [],
   fun i => if i = 3 then some (0, 2) else none, 4⟩

/-- Scenario genotype 1: one gene `(0,2)` (id 3) with weight 1. -/
def scenG1 : Genotype :=
  ⟨Finset.range 2, Finset.Ico 2 3, ∅, [((0, 2), ⟨3, 1⟩)],
   [(0, ∅), (1, {2})]⟩

/-- Scenario genotype 2: the matching gene `(0,2)` (id 3) with weight 3. -/
def scenG2 : Genotype :=
  ⟨Finset.range 2, Finset.Ico 2 3, ∅, [((0, 2), ⟨3, 3⟩)],
   [(0, ∅), (1, {2})]⟩

/-- C4: the species genetic distance computed by the source loop equals
`c1*excess/N + c2*disjoint/N + c3*meanWeightDiff` exactly as the
specification words it (under set semantics of the marker collections); on
the concrete scenario of one shared gene with weights 1 and 3 and
`c1=c2=c3=1` the distance is exactly 2. -/
theorem get_genetic_distance_formula :
    (∀ (st : Genetics) (rep cand : Genotype) (c1 c2 c3 : ℚ),
      (rep.genes.map (fun p => marker st p.1)).Nodup →
      (cand.genes.map (fun p => marker st p.1)).Nodup →
      get_genetic_distance st rep cand c1 c2 c3 =
        distanceSpec st rep cand c1 c2 c3) ∧
    get_genetic_distance scenSt scenG1 scenG2 1 1 1 = 2 := by
  refine ⟨distance_eq_spec, ?_⟩
  rw [distance_eq_spec scenSt scenG1 scenG2 1 1 1 (by decide) (by decide)]
  norm_num [distanceSpec, marker, scenSt, scenG1, scenG2, alGet?]

/-- Witness for C4 at a concrete input: the loop-computed distance agrees
with the spec formula on the scenario genotypes. -/
theorem get_genetic_distance_formula_witness :
    get_genetic_distance scenSt scenG1 scenG2 1 1 1 =
      distanceSpec scenSt scenG1 scenG2 1 1 1 :=
  get_genetic_distance_formula.1 scenSt scenG1 scenG2 1 1 1
    (by decide) (by decide)

/-! ## Network decoder/evaluator (`network.py`)

The two transcendental maps of the source are abstract parameters:
`σ` models `activation_sigmoid_custom` (`1/(1+e^(-4.9 x))`) and `pN` models
the softmax post-processing; `p1` models the clamped logistic applied
elementwise in the single-output 'probability' branch.  Every theorem holds
for arbitrary `σ`, `pN`, `p1`. -/

/-- `input_type` of `Network.compute`. -/
inductive InType
  | points
  | sequence
  deriving DecidableEq

/-- `output_type` of `Network.compute`. -/
inductive OutType
  | probability
  | raw
  deriving DecidableEq

/-- `Node` of `network.py`.  `predecessors` stores (node index, weight);
`activation = true` stands for the `'sigmoid_custom'` activation given to
hidden nodes, `false` for the `''` (no-op) activation of input and output
nodes. -/
structure Node where
  value : ℚ
  past_value : ℚ
  visited : Bool
  calculated : Bool
  predecessors : List (Nat × ℚ)
  activation : Bool

/-- Pointwise update of the node table at one index (attribute assignment
on one node object). -/
def upd (st : Nat → Node) (i : Nat) (f : Node → Node) : Nat → Node :=
  fun j => if j = i then f (st j) else st j

/-- `Node.get_value`, with an explicit fuel argument in place of Python's
unbounded recursion (the visited marking bounds the real recursion depth by
the node count, so any fuel above the node count is equivalent; `compute`
passes `numNodes + 1`). -/
def get_value (σ : ℚ → ℚ) : Nat → (Nat → Node) → Nat → ℚ × (Nat → Node)
  | 0, st, i => ((st i).value, st)
  | fuel + 1, st, i =>
    let n := st i
    if n.visited = false then
      -- first visit at node
      let st1 := upd st i (fun m => { m with visited := true })
      -- value calculation
      let st2 := n.predecessors.foldl (fun acc p =>
        let r := get_value σ fuel acc p.1
        upd r.2 i (fun m => { m with value := m.value + r.1 * p.2 })) st1
      -- applying activation function
      let st3 :=
        if n.activation then upd st2 i (fun m => { m with value := σ m.value })
        else st2
      let st4 := upd st3 i (fun m => { m with calculated := true })
      ((st4 i).value, st4)
    else
      if n.calculated then (n.value, st)
      else (n.past_value, st)

/-- `Network` of `network.py`: the initial node table (indices in the order
inputs, outputs, hidden — the source's `nodes` list) and the index lists of
the input and output layers. -/
structure Network where
  st0 : Nat → Node
  input_nodes : List Nat
  output_nodes : List Nat
  numNodes : Nat

/-- `Network.__init__`: one node per genome node id (inputs and outputs
with no activation, hidden with the sigmoid), and every gene appended as a
`(input index, weight)` predecessor of its output node.  Python iterates
the id sets; they are enumerated in increasing order. -/
def Network.ofGenotype (g : Genotype) : Network :=
  let inputsL := sortedNodes g.input_nodes
  let outputsL := sortedNodes g.output_nodes
  let hiddenL := sortedNodes g.hidden_nodes
  let ids := inputsL ++ outputsL ++ hiddenL
  let idx := fun id => ids.indexOf id
  { st0 := fun j =>
      { value := 0
        past_value := 0
        visited := false
        calculated := false
        predecessors := (g.genes.filter (fun p => idx p.1.2 = j)).map
          (fun p => (idx p.1.1, p.2.weight))
        activation := decide (inputsL.length + outputsL.length ≤ j) }
    input_nodes := List.range inputsL.length
    output_nodes := (List.range outputsL.length).map
      (fun k => inputsL.length + k)
    numNodes := ids.length }

/-- `Node.reset` applied to every node after an input vector, fused with
the `points`-mode zeroing of the previous-value register that `compute`
performs right after it. -/
def resetAll (it : InType) (st : Nat → Node) : Nat → Node :=
  fun j =>
    let n := st j
    { n with
      visited := false
      calculated := false
      past_value := if it = InType.points then 0 else n.value
      value := 0 }

/-- The per-vector portion of `Network.compute` before the reset: assign
the vector to the input nodes, then pull each output node's value. -/
def compute_vec_pre (σ : ℚ → ℚ) (net : Network) (st : Nat → Node)
    (v : List ℚ) : List ℚ × (Nat → Node) :=
  let st := (v.zip net.input_nodes).foldl
    (fun s p => upd s p.2 (fun m => { m with value := p.1 })) st
  net.output_nodes.foldl (fun acc j =>
      let r := get_value σ (net.numNodes + 1) acc.2 j
      (acc.1 ++ [r.1], r.2)) (([] : List ℚ), st)

/-- The output post-processing of `Network.compute`: softmax (`pN`) over
multiple outputs, elementwise clamped sigmoid (`p1`) otherwise; raw mode
returns the values unchanged. -/
def postprocess (ot : OutType) (pN : List ℚ → List ℚ) (p1 : ℚ → ℚ)
    (result : List ℚ) : List ℚ :=
  match ot with
  | OutType.raw => result
  | OutType.probability =>
      if 1 < result.length then pN result else result.map p1

/-- The vector loop of `Network.compute` from a given accumulated output
list and node table. -/
def computeFrom (σ : ℚ → ℚ) (pN : List ℚ → List ℚ) (p1 : ℚ → ℚ)
    (net : Network) (it : InType) (ot : OutType)
    (acc : List (List ℚ) × (Nat → Node)) (data : List (List ℚ)) :
    List (List ℚ) × (Nat → Node) :=
  data.foldl (fun acc v =>
    let r := compute_vec_pre σ net acc.2 v
    (acc.1 ++ [postprocess ot pN p1 r.1], resetAll it r.2)) acc

/-- `Network.compute`: outputs for every input vector. -/
def Network.compute (σ : ℚ → ℚ) (pN : List ℚ → List ℚ) (p1 : ℚ → ℚ)
    (net : Network) (data : List (List ℚ)) (it : InType) (ot : OutType) :
    List (List ℚ) :=
  (computeFrom σ pN p1 net it ot ([], net.st0) data).1

/-- The two failure modes of `Entity.test` on degenerate input: numpy's
`.item()` on an array that does not hold exactly one element
(a `ValueError`), and Python's division by zero (`ZeroDivisionError`). -/
inductive TestFault
  | zeroDivision
  | itemFault
  deriving DecidableEq

/-- numpy `.item()`: the sole element of a one-element array, an error
otherwise. -/
def npItem : List ℚ → Except TestFault ℚ
  | [x] => Except.ok x
  | _ => Except.error TestFault.itemFault

/-- numpy `(y - y_hat) ** 2` under broadcasting; incompatible shapes (which
raise in numpy, as `.item()` on a non-singleton does) yield the empty array
so that the subsequent `.item()` faults. -/
def npSubSq (y y_hat : List ℚ) : List ℚ :=
  if y.length = y_hat.length then
    (y.zip y_hat).map (fun p => (p.1 - p.2) ^ 2)
  else if y.length = 1 then
    y_hat.map (fun b => (y.headD 0 - b) ^ 2)
  else if y_hat.length = 1 then
    y.map (fun a => (a - y_hat.headD 0) ^ 2)
  else []

/-- `Entity.test` of `entity.py`: decode the genotype, compute the network
output over the dataset (with the default `'probability'` output mode),
subtract each sample's `(y - y_hat)**2 .item()` from 0, and divide by the
dataset size.  The faults numpy/Python raise are explicit `Except` errors. -/
def Entity.test (σ : ℚ → ℚ) (pN : List ℚ → List ℚ) (p1 : ℚ → ℚ)
    (g : Genotype) (data expected : List (List ℚ)) (it : InType) :
    Except TestFault ℚ :=
  let network := Network.ofGenotype g
  let net_out := Network.compute σ pN p1 network data it OutType.probability
  let acc := (net_out.zip expected).foldl
    (fun (acc : Except TestFault ℚ) p =>
      match acc with
      | Except.error e => Except.error e
      | Except.ok f =>
          match npItem (npSubSq p.1 p.2) with
          | Except.ok l => Except.ok (f - l)
          | Except.error e => Except.error e) (Except.ok 0)
  match acc with
  | Except.error e => Except.error e
  | Except.ok f =>
      if data.length = 0 then Except.error TestFault.zeroDivision
      else Except.ok (f / (data.length : ℚ))

/-! ## C7: empty dataset -/

/-- C7: evaluating an individual against an empty dataset hits the
unguarded `self.fitness /= len(data)` and fails with the arithmetic
division-by-zero fault — not with the InvalidInput condition the
specification demands. -/
theorem test_empty_dataset_fault (σ : ℚ → ℚ) (pN : List ℚ → List ℚ)
    (p1 : ℚ → ℚ) (g : Genotype) (expected : List (List ℚ)) (it : InType) :
    Entity.test σ pN p1 g [] expected it =
      Except.error TestFault.zeroDivision := rfl

/-! ## C5: fitness as mean negated squared error -/

/-- Pulling the output nodes appends exactly one value per output node. -/
theorem pull_outputs_length (σ : ℚ → ℚ) (fuel : Nat) (outs : List Nat)
    (init : List ℚ) (st : Nat → Node) :
    ((outs.foldl (fun acc j =>
        let r := get_value σ fuel acc.2 j
        (acc.1 ++ [r.1], r.2)) (init, st)).1).length =
      init.length + outs.length := by
  induction outs generalizing init st with
  | nil => simp
  | cons j t ih =>
      rw [List.foldl_cons, ih]
      simp
      omega

/-- `compute_vec_pre` returns one value per output node. -/
theorem compute_vec_pre_length (σ : ℚ → ℚ) (net : Network)
    (st : Nat → Node) (v : List ℚ) :
    (compute_vec_pre σ net st v).1.length = net.output_nodes.length := by
  unfold compute_vec_pre
  rw [pull_outputs_length]
  simp

/-- On a single-output network, every vector of `compute`'s result has
exactly one component. -/
theorem compute_out_length (σ : ℚ → ℚ) (pN : List ℚ → List ℚ)
    (p1 : ℚ → ℚ) (net : Network) (it : InType) (data : List (List ℚ))
    (hout : net.output_nodes.length = 1) :
    ∀ v ∈ Network.compute σ pN p1 net data it OutType.probability,
      v.length = 1 := by
  have key : ∀ (data : List (List ℚ)) (acc : List (List ℚ) × (Nat → Node)),
      (∀ v ∈ acc.1, v.length = 1) →
      ∀ v ∈ (computeFrom σ pN p1 net it OutType.probability acc data).1,
        v.length = 1 := by
    intro data
    induction data with
    | nil =>
        intro acc hacc
        exact hacc
    | cons w rest ih =>
        intro acc hacc
        rw [show computeFrom σ pN p1 net it OutType.probability acc
            (w :: rest) = computeFrom σ pN p1 net it OutType.probability
            (acc.1 ++ [postprocess OutType.probability pN p1
              (compute_vec_pre σ net acc.2 w).1],
             resetAll it (compute_vec_pre σ net acc.2 w).2) rest from rfl]
        apply ih
        intro v hv
        rcases List.mem_append.1 hv with hv | hv
        · exact hacc v hv
        · have hv1 : v = postprocess OutType.probability pN p1
              (compute_vec_pre σ net acc.2 w).1 := by simpa using hv
          subst hv1
          have hlen := compute_vec_pre_length σ net acc.2 w
          rw [hout] at hlen
          simp [postprocess, hlen]
  intro v hv
  exact key data ([], net.st0) (by intro v hv; simp at hv) v hv

theorem zip_same_fst_eq_snd {α : Type} (l : List α) :
    ∀ p ∈ l.zip l, p.1 = p.2 := by
  induction l with
  | nil =>
      intro p hp
      simp at hp
  | cons a t ih =>
      intro p hp
      rw [List.zip_cons_cons, List.mem_cons] at hp
      rcases hp with hp | hp
      · rw [hp]
      · exact ih p hp

/-- The loss-accumulation loop of `Entity.test` over one-component
vectors: no fault occurs and the accumulator collects the negated summed
squared errors. -/
theorem loss_fold_ok (pairs : List (List ℚ × List ℚ)) (f : ℚ)
    (h : ∀ p ∈ pairs, p.1.length = 1 ∧ p.2.length = 1) :
    pairs.foldl (fun (acc : Except TestFault ℚ) p =>
      match acc with
      | Except.error e => Except.error e
      | Except.ok f =>
          match npItem (npSubSq p.1 p.2) with
          | Except.ok l => Except.ok (f - l)
          | Except.error e => Except.error e) (Except.ok f) =
      Except.ok (f - (pairs.map
        (fun p => (p.1.headD 0 - p.2.headD 0) ^ 2)).sum) := by
  induction pairs generalizing f with
  | nil => simp
  | cons p t ih =>
      obtain ⟨hp1, hp2⟩ := h p (List.mem_cons_self p t)
      rcases List.length_eq_one.1 hp1 with ⟨a, ha⟩
      rcases List.length_eq_one.1 hp2 with ⟨b, hb⟩
      rw [List.foldl_cons]
      have hsq : npSubSq p.1 p.2 = [(a - b) ^ 2] := by
        rw [ha, hb]
        simp [npSubSq]
      rw [show (match Except.ok f with
          | Except.error e => (Except.error e : Except TestFault ℚ)
          | Except.ok f =>
              match npItem (npSubSq p.1 p.2) with
              | Except.ok l => Except.ok (f - l)
              | Except.error e => Except.error e) =
          Except.ok (f - (a - b) ^ 2) by rw [hsq]; rfl]
      rw [ih _ (fun q hq => h q (List.mem_cons_of_mem p hq))]
      congr 1
      simp only [List.map_cons, List.sum_cons, ha, hb, List.headD_cons]
      ring

/-- C5 (amended): for a non-empty dataset and an individual whose network
has exactly one output node (with matching one-component expected vectors),
the stored fitness is the mean over samples of the negated squared error
between the network's output and the expected output; it is never positive,
and it equals 0 — the maximum — when the network output equals the expected
output on every sample. -/
theorem test_fitness_amended (σ : ℚ → ℚ) (pN : List ℚ → List ℚ)
    (p1 : ℚ → ℚ) (g : Genotype) (data expected : List (List ℚ))
    (it : InType)
    (hne : data ≠ [])
    (hexp1 : ∀ v ∈ expected, v.length = 1)
    (hout : (Network.ofGenotype g).output_nodes.length = 1) :
    Entity.test σ pN p1 g data expected it =
      Except.ok (-((((Network.compute σ pN p1 (Network.ofGenotype g) data
          it OutType.probability).zip expected).map
          (fun p => (p.1.headD 0 - p.2.headD 0) ^ 2)).sum) /
        (data.length : ℚ)) ∧
    -((((Network.compute σ pN p1 (Network.ofGenotype g) data it
        OutType.probability).zip expected).map
        (fun p => (p.1.headD 0 - p.2.headD 0) ^ 2)).sum) /
      (data.length : ℚ) ≤ 0 ∧
    (Network.compute σ pN p1 (Network.ofGenotype g) data it
        OutType.probability = expected →
      Entity.test σ pN p1 g data expected it = Except.ok 0) := by
  have hpairs : ∀ p ∈ (Network.compute σ pN p1 (Network.ofGenotype g) data
      it OutType.probability).zip expected,
      p.1.length = 1 ∧ p.2.length = 1 := by
    intro p hp
    have hm := List.of_mem_zip hp
    exact ⟨compute_out_length σ pN p1 (Network.ofGenotype g) it data hout
      p.1 hm.1, hexp1 p.2 hm.2⟩
  have hlen0 : ¬ data.length = 0 := by
    intro habs
    exact hne (List.length_eq_zero.1 habs)
  have heq : Entity.test σ pN p1 g data expected it =
      Except.ok (-((((Network.compute σ pN p1 (Network.ofGenotype g) data
          it OutType.probability).zip expected).map
          (fun p => (p.1.headD 0 - p.2.headD 0) ^ 2)).sum) /
        (data.length : ℚ)) := by
    simp only [Entity.test]
    rw [loss_fold_ok _ _ hpairs]
    simp [hlen0, zero_sub]
  refine ⟨heq, ?_, ?_⟩
  · have hs : 0 ≤ (((Network.compute σ pN p1 (Network.ofGenotype g) data
        it OutType.probability).zip expected).map
        (fun p => (p.1.headD 0 - p.2.headD 0) ^ 2)).sum := by
      apply List.sum_nonneg
      intro x hx
      rcases List.mem_map.1 hx with ⟨q, _, hq⟩
      rw [← hq]
      exact sq_nonneg _
    rw [neg_div]
    exact neg_nonpos.2 (div_nonneg hs (Nat.cast_nonneg _))
  · intro hperf
    rw [heq, hperf]
    have hz : ((expected.zip expected).map
        (fun p => (p.1.headD 0 - p.2.headD 0) ^ 2)).sum = 0 := by
      apply List.sum_eq_zero
      intro x hx
      rcases List.mem_map.1 hx with ⟨q, hqm, hq⟩
      have : q.1 = q.2 := zip_same_fst_eq_snd _ q hqm
      rw [← hq, this]
      simp
    rw [hz]
    simp

/-- C5 counterexample: on a two-output individual, `loss.item()` hits an
array of two elements and faults (`ValueError` in numpy) — no fitness is
stored at all, so the claimed mean-of-negated-errors equation fails for
multi-output networks. -/
theorem test_multi_output_counterexample :
    Entity.test (fun x => x) (fun l => l) (fun x => x) (Genotype.init 1 2)
      [[1]] [[0, 0]] InType.points = Except.error TestFault.itemFault := by
  rfl

/-- Witness for the amended C5 at a concrete input: the founder network
with one input and one output (no genes) evaluated on one sample whose
expected output matches the network output exactly has fitness 0. -/
theorem test_fitness_amended_witness :
    Entity.test (fun x => x) (fun l => l) (fun x => x) (Genotype.init 1 1)
      [[1]] [[0]] InType.points = Except.ok 0 :=
  (test_fitness_amended (fun x => x) (fun l => l) (fun x => x)
    (Genotype.init 1 1) [[1]] [[0]] InType.points
    (by decide) (by decide) (by decide)).2.2 (by decide)

/-! ## C6: recurrent value resolution and per-vector reset -/

/-- C6: (a) a node whose value is requested while visited but not yet
settled returns its previous time-step's value and leaves the evaluation
state untouched (no recursion); (b) `compute` processes each vector by
computing the outputs and then resetting every node; (c) the reset clears
both flags and the value, and moves the just-computed value into the
previous-value register — forced to zero in `points` mode, so no state
carries over across samples. -/
theorem recurrent_value_and_reset :
    (∀ (σ : ℚ → ℚ) (fuel : Nat) (st : Nat → Node) (i : Nat),
      (st i).visited = true → (st i).calculated = false →
      get_value σ (fuel + 1) st i = ((st i).past_value, st)) ∧
    (∀ (σ : ℚ → ℚ) (pN : List ℚ → List ℚ) (p1 : ℚ → ℚ) (net : Network)
        (it : InType) (ot : OutType) (acc : List (List ℚ) × (Nat → Node))
        (v : List ℚ) (data : List (List ℚ)),
      computeFrom σ pN p1 net it ot acc (v :: data) =
        computeFrom σ pN p1 net it ot
          (acc.1 ++ [postprocess ot pN p1 (compute_vec_pre σ net acc.2 v).1],
           resetAll it (compute_vec_pre σ net acc.2 v).2) data) ∧
    (∀ (it : InType) (st : Nat → Node) (j : Nat),
      (resetAll it st j).visited = false ∧
      (resetAll it st j).calculated = false ∧
      (resetAll it st j).value = 0 ∧
      (resetAll it st j).past_value =
        (if it = InType.points then 0 else (st j).value)) := by
  refine ⟨?_, ?_, ?_⟩
  · intro σ fuel st i h1 h2
    simp [get_value, h1, h2]
  · intro σ pN p1 net it ot acc v data
    rfl
  · intro it st j
    exact ⟨rfl, rfl, rfl, rfl⟩

/-- Witness for C6 at a concrete input: a one-node state marked visited
but not settled returns its previous value 42. -/
theorem recurrent_value_and_reset_witness :
    get_value (fun x => x) 1
      (fun _ => ⟨7, 42, true, false, [], false⟩) 0 =
      (42, fun _ => ⟨7, 42, true, false, [], false⟩) :=
  recurrent_value_and_reset.1 (fun x => x) 0
    (fun _ => ⟨7, 42, true, false, [], false⟩) 0 rfl rfl

/-! ## C9: reproduction parent sampling (`neat.py`, `next_generation`) -/

/-- `mate_probabilities = list(reversed([i + 1 for i in range(len(
specie.entities))]))`: the sampling weights over the fitness-sorted
entities of a species of size `n`. -/
def mate_probabilities (n : Nat) : List Nat :=
  ((List.range n).map (fun i => i + 1)).reverse

/-- Cumulative weights (`itertools.accumulate` inside `random.choices`),
with running total `s`. -/
def cumWeights : List Nat → Nat → List Nat
  | [], _ => []
  | w :: t, s => (s + w) :: cumWeights t (s + w)

/-- The index `random.choices` picks for one uniform draw `r ∈ [0,1)`:
`bisect_right(cum_weights, r * total, 0, len - 1)`, i.e. the number of
cumulative weights that are at most `r * total`, clamped to the last
index. -/
def weightedIndex (ws : List Nat) (r : ℚ) : Nat :=
  let cum := cumWeights ws 0
  let total : Nat := cum.getLastD 0
  min (cum.countP (fun c => (c : ℚ) ≤ r * (total : ℚ))) (ws.length - 1)

/-- `random.choices(specie.entities, mate_probabilities, k=2)`: the two
parents drawn (with replacement) from the population `pop` with weights
`ws` using the uniform draws `r1`, `r2`. -/
def random_choices_two {α : Type} (pop : List α) (ws : List Nat)
    (r1 r2 : ℚ) (d : α) : α × α :=
  (pop.getD (weightedIndex ws r1) d, pop.getD (weightedIndex ws r2) d)

/-- C9 counterexample: in a species of two entities the code's weight list
is `[2, 1]` — the fittest entity (rank 0) receives weight 2, not the
`rank + 1 = 1` the claim states. -/
theorem mate_probabilities_counterexample :
    mate_probabilities 2 = [2, 1] ∧ mate_probabilities 2 ≠ [1, 2] := by
  decide

/-- C9 (amended): the sampling weight of the entity at rank `i` (rank 0 is
the fittest, entities sorted descending by fitness) is `n - i`, so fitter
individuals carry strictly heavier weight; both parents are drawn from
the same list with replacement, so equal draws give the same individual as
both parents. -/
theorem mate_probabilities_amended :
    (∀ n i, i < n → (mate_probabilities n).getD i 0 = n - i) ∧
    (∀ n i j, i < j → j < n →
      (mate_probabilities n).getD j 0 < (mate_probabilities n).getD i 0) ∧
    (∀ (pop : List Entity) (ws : List Nat) (r : ℚ) (d : Entity),
      (random_choices_two pop ws r r d).1 =
        (random_choices_two pop ws r r d).2) := by
  have hval : ∀ n i, i < n → (mate_probabilities n).getD i 0 = n - i := by
    intro n i hin
    have hlen : ((List.range n).map (fun i => i + 1)).length = n := by simp
    rw [mate_probabilities, List.getD_eq_getElem?_getD,
      List.getElem?_reverse (by simpa [hlen] using hin)]
    rw [hlen, List.getElem?_map]
    have hlt : n - 1 - i < n := by omega
    rw [List.getElem?_range hlt]
    simp
    omega
  refine ⟨hval, ?_, ?_⟩
  · intro n i j hij hjn
    rw [hval n i (lt_trans hij hjn), hval n j hjn]
    omega
  · intro pop ws r d
    rfl

/-- Witness for the amended C9 at a concrete input: in a species of three,
the fittest entity's weight is 3. -/
theorem mate_probabilities_amended_witness :
    (mate_probabilities 3).getD 0 0 = 3 - 0 :=
  mate_probabilities_amended.1 3 0 (by decide)

/-! ## C3: crossover -/

/-- `Genotype.copy` is a value-faithful deep clone. -/
theorem Genotype.copy_eq (g : Genotype) : g.copy = g := by
  cases g
  simp [Genotype.copy, Gene.copy]

/-- `alGet?` through a key-preserving entry map. -/
theorem alGet?_map_keyed {κ β : Type} [DecidableEq κ]
    (f : (κ × β) → (κ × β)) (hf : ∀ p, (f p).1 = p.1)
    (l : List (κ × β)) (k : κ) :
    alGet? (l.map f) k = (alGet? l k).map (fun v => (f (k, v)).2) := by
  induction l with
  | nil => rfl
  | cons p t ih =>
      obtain ⟨pk, pv⟩ := p
      by_cases hk : pk = k
      · subst hk
        have h1 : (f (pk, pv)).1 = pk := hf (pk, pv)
        rw [List.map_cons]
        rw [show alGet? (f (pk, pv) :: t.map f) pk =
            some (f (pk, pv)).2 by simp [alGet?, h1]]
        simp [alGet?]
      · have h1 : (f (pk, pv)).1 = pk := hf (pk, pv)
        rw [List.map_cons]
        rw [show alGet? (f (pk, pv) :: t.map f) k =
            alGet? (t.map f) k by simp [alGet?, h1, hk]]
        simp [alGet?, hk, ih]

/-- C3: `mate` takes the parent with the strictly higher fitness as
dominant (the second operand on a tie), copies its genotype, overwrites
each gene key present in both parents with the recessive parent's weight
exactly when that key's coin draw is below 1/2, runs the default `mutate`
step on the result, and returns a child with unset fitness. -/
theorem mate_crossover (st : Genetics) (e1 e2 : Entity)
    (coin : Nat × Nat → ℚ) (ρ : MutRand) (f1 f2 : ℚ)
    (h1 : e1.fitness = some f1) (h2 : e2.fitness = some f2) :
    ((Entity.mate st e1 e2 coin ρ).2.fitness = none) ∧
    (f1 = f2 →
      (if f1 > f2 then e1.genotype else e2.genotype) = e2.genotype) ∧
    (∃ C : Genotype,
      (Entity.mate st e1 e2 coin ρ).1 = (Genotype.mutate_default st C ρ).1 ∧
      (Entity.mate st e1 e2 coin ρ).2.genotype =
        (Genotype.mutate_default st C ρ).2 ∧
      C.input_nodes = (if f1 > f2 then e1.genotype
        else e2.genotype).input_nodes ∧
      C.output_nodes = (if f1 > f2 then e1.genotype
        else e2.genotype).output_nodes ∧
      C.hidden_nodes = (if f1 > f2 then e1.genotype
        else e2.genotype).hidden_nodes ∧
      C.routes = (if f1 > f2 then e1.genotype else e2.genotype).routes ∧
      C.genes.map Prod.fst = (if f1 > f2 then e1.genotype
        else e2.genotype).genes.map Prod.fst ∧
      (∀ k gene,
        alGet? (if f1 > f2 then e1.genotype
          else e2.genotype).genes k = some gene →
        (∀ g2, alGet? (if f1 > f2 then e2.genotype
            else e1.genotype).genes k = some g2 →
          alGet? C.genes k = some (if coin k < 1/2 then
            { gene with weight := g2.weight } else gene)) ∧
        (alGet? (if f1 > f2 then e2.genotype
            else e1.genotype).genes k = none →
          alGet? C.genes k = some gene))) := by
  have hfit : fitGt e1.fitness e2.fitness = decide (f1 > f2) := by
    rw [h1, h2]
    rfl
  set dom := if f1 > f2 then e1.genotype else e2.genotype with hdom
  set rec0 := if f1 > f2 then e2.genotype else e1.genotype with hrec
  have hunfold : Entity.mate st e1 e2 coin ρ =
      (let child_gen : Genotype :=
        { dom.copy with
          genes := dom.copy.genes.map (fun p =>
            match alGet? rec0.genes p.1 with
            | some g2 => if coin p.1 < 1/2 then
                (p.1, { p.2 with weight := g2.weight }) else p
            | none => p) }
       let s := Genotype.mutate_default st child_gen ρ
       (s.1, { genotype := s.2, fitness := none })) := by
    rw [Entity.mate, hfit]
    by_cases hf : f1 > f2
    · simp [hf, hdom, hrec]
    · simp [hf, hdom, hrec]
  set repl := fun p : (Nat × Nat) × Gene =>
    match alGet? rec0.genes p.1 with
    | some g2 => if coin p.1 < 1/2 then
        (p.1, { p.2 with weight := g2.weight }) else p
    | none => p with hrepl
  have hreplkey : ∀ p, (repl p).1 = p.1 := by
    intro p
    rw [hrepl]
    rcases halg : alGet? rec0.genes p.1 with _ | g2
    · simp [halg]
    · simp only [halg]
      by_cases hcoin : coin p.1 < 1/2
      · rw [if_pos hcoin]
      · rw [if_neg hcoin]
  refine ⟨by rw [hunfold], fun he => by rw [hdom, he]; simp, ?_⟩
  refine ⟨{ dom.copy with genes := dom.copy.genes.map repl }, ?_, ?_,
    ?_, ?_, ?_, ?_, ?_, ?_⟩
  · rw [hunfold]
  · rw [hunfold]
  · rw [Genotype.copy_eq]
  · rw [Genotype.copy_eq]
  · rw [Genotype.copy_eq]
  · rw [Genotype.copy_eq]
  · rw [Genotype.copy_eq]
    simp only [List.map_map]
    apply List.map_congr_left
    intro p _
    exact hreplkey p
  · intro k gene hget
    rw [Genotype.copy_eq] at *
    have hrepl_app : repl (k, gene) =
        match alGet? rec0.genes k with
        | some g2 =>
            if coin k < 1/2 then (k, { gene with weight := g2.weight })
            else (k, gene)
        | none => (k, gene) := by
      rw [hrepl]
    constructor
    · intro g2 hg2
      rw [show ({ dom with genes := dom.genes.map repl } :
          Genotype).genes = dom.genes.map repl from rfl]
      rw [alGet?_map_keyed repl hreplkey, hget]
      simp only [Option.map_some']
      rw [hrepl_app]
      rw [show (match alGet? rec0.genes k with
          | some g2 =>
              if coin k < 1/2 then (k, { gene with weight := g2.weight })
              else (k, gene)
          | none => (k, gene)) =
          (if coin k < 1/2 then (k, { gene with weight := g2.weight })
            else (k, gene)) by rw [hg2]]
      by_cases hcoin : coin k < 1/2
      · rw [if_pos hcoin, if_pos hcoin]
      · rw [if_neg hcoin, if_neg hcoin]
    · intro hnone
      rw [show ({ dom with genes := dom.genes.map repl } :
          Genotype).genes = dom.genes.map repl from rfl]
      rw [alGet?_map_keyed repl hreplkey, hget]
      simp only [Option.map_some']
      rw [hrepl_app]
      rw [show (match alGet? rec0.genes k with
          | some g2 =>
              if coin k < 1/2 then (k, { gene with weight := g2.weight })
              else (k, gene)
          | none => (k, gene)) = (k, gene) by rw [hnone]]

/-- Witness for C3 at a concrete input: two evaluated founder entities
with fitness 1 and 0; the child's fitness is unset. -/
theorem mate_crossover_witness :
    (Entity.mate reg0 ⟨Genotype.init 1 1, some 1⟩ ⟨Genotype.init 1 1, some 0⟩
      (fun _ => 1) ⟨1, fun _ => 1, fun _ => 1, 1, 0, 0, 0, 1, 0⟩).2.fitness =
      none :=
  (mate_crossover reg0 ⟨Genotype.init 1 1, some 1⟩
    ⟨Genotype.init 1 1, some 0⟩ (fun _ => 1)
    ⟨1, fun _ => 1, fun _ => 1, 1, 0, 0, 0, 1, 0⟩ 1 0 rfl rfl).1

/-! ## C8: copy independence (object-store model)

The pure model above cannot express Python's object aliasing, which is what
the copy-independence claim is about: `Genotype.copy` clones every `Gene`
object (`gen.copy()`) and every routes set (`s.copy()`), so no write
through the copy reaches the source.  This section renders the same source
functions against an explicit object store: gene objects and routes sets
live in numbered cells, a genotype holds cell references, and attribute
mutation is a store write.  Node-id sets are plain values held by the
genotype record, so they can never be shared; the mutable state the claim
is about is exactly the gene and routes cells. -/

/-- The object store: gene objects and routes sets by cell number, plus
the allocation frontier. -/
structure Store where
  geneCells : Nat → Gene
  routeCells : Nat → Finset Nat
  next : Nat

/-- A genotype holding references into the store: `genes` maps each
connection pair to the cell of its `Gene` object, `routes` maps each node
to the cell of its routes set. -/
structure HGenotype where
  input_nodes : Finset Nat
  output_nodes : Finset Nat
  hidden_nodes : Finset Nat
  genes : List ((Nat × Nat) × Nat)
  routes : List (Nat × Nat)

/-- Write a gene cell. -/
def writeGene (s : Store) (c : Nat) (g : Gene) : Store :=
  { s with geneCells := fun c' => if c' = c then g else s.geneCells c' }

/-- Write a routes cell. -/
def writeRoutes (s : Store) (c : Nat) (v : Finset Nat) : Store :=
  { s with routeCells := fun c' => if c' = c then v else s.routeCells c' }

/-- Allocate a fresh cell holding a new `Gene` object. -/
def allocGene (s : Store) (g : Gene) : Store × Nat :=
  ({ s with
     geneCells := fun c => if c = s.next then g else s.geneCells c
     next := s.next + 1 }, s.next)

/-- Allocate a fresh cell holding a new routes set. -/
def allocRoutes (s : Store) (v : Finset Nat) : Store × Nat :=
  ({ s with
     routeCells := fun c => if c = s.next then v else s.routeCells c
     next := s.next + 1 }, s.next)

/-- `Genotype.copy` at store level: a fresh cell per gene (holding
`Gene.copy` of the source object) and a fresh cell per routes set (holding
a copy of the set). -/
def HGenotype.copy (s : Store) (g : HGenotype) : Store × HGenotype :=
  let r1 := g.genes.foldl
    (fun (acc : Store × List ((Nat × Nat) × Nat)) p =>
      let a := allocGene acc.1 ((acc.1.geneCells p.2).copy)
      (a.1, acc.2 ++ [(p.1, a.2)])) (s, [])
  let r2 := g.routes.foldl
    (fun (acc : Store × List (Nat × Nat)) p =>
      let a := allocRoutes acc.1 (acc.1.routeCells p.2)
      (a.1, acc.2 ++ [(p.1, a.2)])) (r1.1, [])
  (r2.1,
   { input_nodes := g.input_nodes
     output_nodes := g.output_nodes
     hidden_nodes := g.hidden_nodes
     genes := r1.2
     routes := r2.2 })

/-- The weight-mutation step of `Genotype.mutate` at store level: every
gene object of the genotype is shifted or randomized in place. -/
def weightMutateS (s : Store) (g : HGenotype) (ρ : MutRand) : Store :=
  (g.genes.enum).foldl (fun st p =>
    if ρ.per_gene p.1 < 9/10 then
      writeGene st p.2.2 ((st.geneCells p.2.2).random_shift (ρ.shift p.1))
    else
      writeGene st p.2.2 ((st.geneCells p.2.2).randomize (ρ.shift p.1))) s

/-- `Genotype.insert_gene` at store level: registry resolution, a write to
the input node's routes set, and allocation of the new `Gene` object. -/
def insert_geneS (st : Genetics) (s : Store) (g : HGenotype)
    (conn : Nat × Nat) (weight? : Option ℚ) (r : ℚ) :
    Genetics × Store × HGenotype :=
  let res := resolveId st g.hidden_nodes conn
  let s1 :=
    match alGet? g.routes conn.1 with
    | some c => writeRoutes s c ((s.routeCells c).erase conn.2)
    | none => s
  let a := allocGene s1 ⟨res.2, weight?.getD (r - 1/2)⟩
  (res.1, a.1, { g with genes := alSet g.genes conn a.2 })

/-- `Genotype.add_connection` at store level. -/
def add_connectionS (st : Genetics) (s : Store) (g : HGenotype)
    (c1 c2 : Nat) (r : ℚ) : Genetics × Store × HGenotype :=
  let in_nodes := (g.routes.filter
    (fun p => s.routeCells p.2 ≠ ∅)).map Prod.fst
  if in_nodes = [] then (st, s, g)
  else
    let in_node := in_nodes.getD (c1 % in_nodes.length) 0
    let out_nodes := sortedNodes (match alGet? g.routes in_node with
      | some c => s.routeCells c
      | none => ∅)
    let out_node := out_nodes.getD (c2 % out_nodes.length) 0
    insert_geneS st s g (in_node, out_node) none r

/-- `Genotype.intersect_connection` at store level. -/
def intersect_connectionS (st : Genetics) (s : Store) (g : HGenotype)
    (c : Nat) : Genetics × Store × HGenotype :=
  let connections := g.genes.map Prod.fst
  if connections = [] then (st, s, g)
  else
    let conn := connections.getD (c % connections.length) (0, 0)
    let gene := s.geneCells ((alGet? g.genes conn).getD 0)
    let gene_id := gene.gene_id
    let conn_weight := gene.weight
    let g1 : HGenotype := { g with genes := alErase g.genes conn }
    -- restore route
    let s1 :=
      match alGet? g1.routes conn.1 with
      | some cc => writeRoutes s cc (insert conn.2 (s.routeCells cc))
      | none => s
    -- add new node to routes
    let s2 := g1.routes.foldl
      (fun st p => writeRoutes st p.2 (insert gene_id (st.routeCells p.2)))
      s1
    -- create routes for new node
    let a := allocRoutes s2 (g.hidden_nodes ∪ g.output_nodes)
    let g2 : HGenotype := { g1 with routes := alSet g1.routes gene_id a.2 }
    let r1 := insert_geneS st a.1 g2 (conn.1, gene_id) (some 1) 0
    let r2 := insert_geneS r1.1 r1.2.1 r1.2.2 (gene_id, conn.2)
      (some conn_weight) 0
    (r2.1, r2.2.1,
     { r2.2.2 with hidden_nodes := insert gene_id r2.2.2.hidden_nodes })

/-- The observable gene map of a genotype: pairs with the gene objects
read through the store. -/
def obsGenes (s : Store) (g : HGenotype) : List ((Nat × Nat) × Gene) :=
  g.genes.map (fun p => (p.1, s.geneCells p.2))

/-- The observable routes map of a genotype, read through the store. -/
def obsRoutes (s : Store) (g : HGenotype) : List (Nat × Finset Nat) :=
  g.routes.map (fun p => (p.1, s.routeCells p.2))

/-- Validity: every cell a genotype references has been allocated. -/
def HValid (s : Store) (g : HGenotype) : Prop :=
  (∀ c ∈ g.genes.map Prod.snd, c < s.next) ∧
  (∀ c ∈ g.routes.map Prod.snd, c < s.next)

/-- Cell `c` holds the same objects in both stores. -/
def untouched (s s' : Store) (c : Nat) : Prop :=
  s'.geneCells c = s.geneCells c ∧ s'.routeCells c = s.routeCells c

theorem untouched_trans {s1 s2 s3 : Store} {c : Nat}
    (h1 : untouched s1 s2 c) (h2 : untouched s2 s3 c) : untouched s1 s3 c :=
  ⟨h2.1.trans h1.1, h2.2.trans h1.2⟩

/-- The gene-cloning fold of `HGenotype.copy`: allocates only fresh cells,
leaves every existing cell untouched, and every reference it produces is
fresh. -/
theorem copyGenesFold_spec (l : List ((Nat × Nat) × Nat)) (s : Store)
    (acc : List ((Nat × Nat) × Nat)) :
    s.next ≤ (l.foldl
      (fun (acc : Store × List ((Nat × Nat) × Nat)) p =>
        let a := allocGene acc.1 ((acc.1.geneCells p.2).copy)
        (a.1, acc.2 ++ [(p.1, a.2)])) (s, acc)).1.next ∧
    (∀ c, c < s.next →
      untouched s (l.foldl
        (fun (acc : Store × List ((Nat × Nat) × Nat)) p =>
          let a := allocGene acc.1 ((acc.1.geneCells p.2).copy)
          (a.1, acc.2 ++ [(p.1, a.2)])) (s, acc)).1 c) ∧
    (∀ c ∈ ((l.foldl
        (fun (acc : Store × List ((Nat × Nat) × Nat)) p =>
          let a := allocGene acc.1 ((acc.1.geneCells p.2).copy)
          (a.1, acc.2 ++ [(p.1, a.2)])) (s, acc)).2.map Prod.snd),
      c ∈ acc.map Prod.snd ∨ s.next ≤ c) := by
  induction l generalizing s acc with
  | nil =>
      refine ⟨le_refl _, fun c _ => ⟨rfl, rfl⟩, fun c hc => Or.inl hc⟩
  | cons p t ih =>
      rw [List.foldl_cons]
      have hstep := ih
        (allocGene s ((s.geneCells p.2).copy)).1
        (acc ++ [(p.1, (allocGene s ((s.geneCells p.2).copy)).2)])
      have hnext : (allocGene s ((s.geneCells p.2).copy)).1.next =
          s.next + 1 := rfl
      refine ⟨?_, ?_, ?_⟩
      · calc s.next ≤ s.next + 1 := Nat.le_succ _
          _ = (allocGene s ((s.geneCells p.2).copy)).1.next := hnext.symm
          _ ≤ _ := hstep.1
      · intro c hc
        have h1 : untouched s (allocGene s ((s.geneCells p.2).copy)).1 c := by
          constructor
          · show (if c = s.next then _ else s.geneCells c) = s.geneCells c
            rw [if_neg (Nat.ne_of_lt hc)]
          · rfl
        exact untouched_trans h1
          (hstep.2.1 c (by rw [hnext]; exact Nat.lt_succ_of_lt hc))
      · intro c hc
        rcases hstep.2.2 c hc with hm | hm
        · rw [List.map_append] at hm
          rcases List.mem_append.1 hm with hm | hm
          · exact Or.inl hm
          · right
            have : c = s.next := by simpa using hm
            rw [this]
        · right
          rw [hnext] at hm
          omega

/-- The routes-cloning fold of `HGenotype.copy`, same shape. -/
theorem copyRoutesFold_spec (l : List (Nat × Nat)) (s : Store)
    (acc : List (Nat × Nat)) :
    s.next ≤ (l.foldl
      (fun (acc : Store × List (Nat × Nat)) p =>
        let a := allocRoutes acc.1 (acc.1.routeCells p.2)
        (a.1, acc.2 ++ [(p.1, a.2)])) (s, acc)).1.next ∧
    (∀ c, c < s.next →
      untouched s (l.foldl
        (fun (acc : Store × List (Nat × Nat)) p =>
          let a := allocRoutes acc.1 (acc.1.routeCells p.2)
          (a.1, acc.2 ++ [(p.1, a.2)])) (s, acc)).1 c) ∧
    (∀ c ∈ ((l.foldl
        (fun (acc : Store × List (Nat × Nat)) p =>
          let a := allocRoutes acc.1 (acc.1.routeCells p.2)
          (a.1, acc.2 ++ [(p.1, a.2)])) (s, acc)).2.map Prod.snd),
      c ∈ acc.map Prod.snd ∨ s.next ≤ c) := by
  induction l generalizing s acc with
  | nil =>
      refine ⟨le_refl _, fun c _ => ⟨rfl, rfl⟩, fun c hc => Or.inl hc⟩
  | cons p t ih =>
      rw [List.foldl_cons]
      have hstep := ih
        (allocRoutes s (s.routeCells p.2)).1
        (acc ++ [(p.1, (allocRoutes s (s.routeCells p.2)).2)])
      have hnext : (allocRoutes s (s.routeCells p.2)).1.next =
          s.next + 1 := rfl
      refine ⟨?_, ?_, ?_⟩
      · calc s.next ≤ s.next + 1 := Nat.le_succ _
          _ = (allocRoutes s (s.routeCells p.2)).1.next := hnext.symm
          _ ≤ _ := hstep.1
      · intro c hc
        have h1 : untouched s (allocRoutes s (s.routeCells p.2)).1 c := by
          constructor
          · rfl
          · show (if c = s.next then _ else s.routeCells c) = s.routeCells c
            rw [if_neg (Nat.ne_of_lt hc)]
        exact untouched_trans h1
          (hstep.2.1 c (by rw [hnext]; exact Nat.lt_succ_of_lt hc))
      · intro c hc
        rcases hstep.2.2 c hc with hm | hm
        · rw [List.map_append] at hm
          rcases List.mem_append.1 hm with hm | hm
          · exact Or.inl hm
          · right
            have : c = s.next := by simpa using hm
            rw [this]
        · right
          rw [hnext] at hm
          omega

/-- `HGenotype.copy`: the store grows, existing cells are untouched, and
every cell the copy references is fresh (disjoint from any valid source's
cells). -/
theorem copy_spec (s : Store) (g : HGenotype) :
    s.next ≤ (HGenotype.copy s g).1.next ∧
    (∀ c, c < s.next → untouched s (HGenotype.copy s g).1 c) ∧
    (∀ c ∈ (HGenotype.copy s g).2.genes.map Prod.snd, s.next ≤ c) ∧
    (∀ c ∈ (HGenotype.copy s g).2.routes.map Prod.snd, s.next ≤ c) := by
  have h1 := copyGenesFold_spec g.genes s []
  have h2 := copyRoutesFold_spec g.routes
    (g.genes.foldl
      (fun (acc : Store × List ((Nat × Nat) × Nat)) p =>
        let a := allocGene acc.1 ((acc.1.geneCells p.2).copy)
        (a.1, acc.2 ++ [(p.1, a.2)])) (s, [])).1 []
  refine ⟨le_trans h1.1 h2.1, ?_, ?_, ?_⟩
  · intro c hc
    exact untouched_trans (h1.2.1 c hc) (h2.2.1 c (lt_of_lt_of_le hc h1.1))
  · intro c hc
    rcases h1.2.2 c hc with hm | hm
    · simp at hm
    · exact hm
  · intro c hc
    rcases h2.2.2 c hc with hm | hm
    · simp at hm
    · exact le_trans h1.1 hm

theorem alGet?_mem_snd {κ β : Type} [DecidableEq κ]
    (l : List (κ × β)) (k : κ) (v : β) (h : alGet? l k = some v) :
    v ∈ l.map Prod.snd := by
  induction l with
  | nil => simp [alGet?] at h
  | cons p t ih =>
      obtain ⟨pk, pv⟩ := p
      by_cases hk : pk = k
      · rw [show alGet? ((pk, pv) :: t) k = some pv by
          simp [alGet?, hk]] at h
        simp [Option.some.inj h]
      · rw [show alGet? ((pk, pv) :: t) k = alGet? t k by
          simp [alGet?, hk]] at h
        simp [ih h]

theorem alSet_mem_snd {κ β : Type} [DecidableEq κ]
    (l : List (κ × β)) (k : κ) (v : β) (c : β)
    (h : c ∈ (alSet l k v).map Prod.snd) :
    c ∈ l.map Prod.snd ∨ c = v := by
  induction l with
  | nil =>
      rw [show alSet ([] : List (κ × β)) k v = [(k, v)] from rfl] at h
      right
      simpa using h
  | cons p t ih =>
      obtain ⟨pk, pv⟩ := p
      by_cases hk : pk = k
      · rw [show alSet ((pk, pv) :: t) k v = (pk, v) :: t by
          simp [alSet, hk]] at h
        rw [List.map_cons, List.mem_cons] at h
        rcases h with h | h
        · right
          exact h
        · left
          simp [h]
      · rw [show alSet ((pk, pv) :: t) k v = (pk, pv) :: alSet t k v by
          simp [alSet, hk]] at h
        rw [List.map_cons, List.mem_cons] at h
        rcases h with h | h
        · left
          simp [h]
        · rcases ih h with h' | h'
          · left
            simp [h']
          · right
            exact h'

/-- The weight-mutation fold writes only the listed gene cells and never
moves the frontier. -/
theorem weightFold_locality (l : List (Nat × ((Nat × Nat) × Nat)))
    (s : Store) (ρ : MutRand) (c : Nat) (hc : ∀ p ∈ l, p.2.2 ≠ c) :
    untouched s (l.foldl (fun st p =>
      if ρ.per_gene p.1 < 9/10 then
        writeGene st p.2.2 ((st.geneCells p.2.2).random_shift (ρ.shift p.1))
      else
        writeGene st p.2.2 ((st.geneCells p.2.2).randomize (ρ.shift p.1)))
      s) c ∧
    (l.foldl (fun st p =>
      if ρ.per_gene p.1 < 9/10 then
        writeGene st p.2.2 ((st.geneCells p.2.2).random_shift (ρ.shift p.1))
      else
        writeGene st p.2.2 ((st.geneCells p.2.2).randomize (ρ.shift p.1)))
      s).next = s.next := by
  induction l generalizing s with
  | nil => exact ⟨⟨rfl, rfl⟩, rfl⟩
  | cons p t ih =>
      rw [List.foldl_cons]
      have hp := hc p (List.mem_cons_self p t)
      have hstep : ∀ s' : Store,
          (if ρ.per_gene p.1 < 9/10 then
            writeGene s' p.2.2
              ((s'.geneCells p.2.2).random_shift (ρ.shift p.1))
          else
            writeGene s' p.2.2
              ((s'.geneCells p.2.2).randomize (ρ.shift p.1))) =
          writeGene s' p.2.2 (if ρ.per_gene p.1 < 9/10 then
            (s'.geneCells p.2.2).random_shift (ρ.shift p.1)
          else (s'.geneCells p.2.2).randomize (ρ.shift p.1)) := by
        intro s'
        by_cases hg : ρ.per_gene p.1 < 9/10
        · rw [if_pos hg, if_pos hg]
        · rw [if_neg hg, if_neg hg]
      rw [hstep]
      have hw : untouched s (writeGene s p.2.2
          (if ρ.per_gene p.1 < 9/10 then
            (s.geneCells p.2.2).random_shift (ρ.shift p.1)
          else (s.geneCells p.2.2).randomize (ρ.shift p.1))) c := by
        constructor
        · show (if c = p.2.2 then _ else s.geneCells c) = s.geneCells c
          rw [if_neg (fun he => hp he.symm)]
        · rfl
      have := ih (writeGene s p.2.2
        (if ρ.per_gene p.1 < 9/10 then
          (s.geneCells p.2.2).random_shift (ρ.shift p.1)
        else (s.geneCells p.2.2).randomize (ρ.shift p.1)))
        (fun q hq => hc q (List.mem_cons_of_mem p hq))
      exact ⟨untouched_trans hw this.1, this.2.trans rfl⟩

/-- `insert_geneS` writes only the input node's routes cell and a fresh
gene cell; the frontier moves up by one, the routes and hidden sets of the
genotype are untouched, and every gene cell of the result is an old cell
or the fresh one. -/
theorem insert_geneS_spec (st : Genetics) (s : Store) (g : HGenotype)
    (conn : Nat × Nat) (w : Option ℚ) (r : ℚ) :
    (∀ c, c < s.next → c ∉ g.routes.map Prod.snd →
      untouched s (insert_geneS st s g conn w r).2.1 c) ∧
    s.next ≤ (insert_geneS st s g conn w r).2.1.next ∧
    (insert_geneS st s g conn w r).2.2.routes = g.routes ∧
    (insert_geneS st s g conn w r).2.2.hidden_nodes = g.hidden_nodes ∧
    (∀ c ∈ (insert_geneS st s g conn w r).2.2.genes.map Prod.snd,
      c ∈ g.genes.map Prod.snd ∨ s.next ≤ c) := by
  have hs1 : ∀ c, c < s.next → c ∉ g.routes.map Prod.snd →
      untouched s (match alGet? g.routes conn.1 with
        | some c0 => writeRoutes s c0 ((s.routeCells c0).erase conn.2)
        | none => s) c := by
    intro c _ hcr
    rcases halg : alGet? g.routes conn.1 with _ | c0
    · exact ⟨rfl, rfl⟩
    · have hmem := alGet?_mem_snd g.routes conn.1 c0 halg
      have hne : ¬ c = c0 := fun he => hcr (he ▸ hmem)
      constructor
      · rfl
      · show (if c = c0 then _ else s.routeCells c) = s.routeCells c
        rw [if_neg hne]
  have hs1next : (match alGet? g.routes conn.1 with
      | some c0 => writeRoutes s c0 ((s.routeCells c0).erase conn.2)
      | none => s).next = s.next := by
    rcases alGet? g.routes conn.1 with _ | c0
    · rfl
    · rfl
  refine ⟨?_, ?_, rfl, rfl, ?_⟩
  · intro c hc hcr
    refine untouched_trans (hs1 c hc hcr) ?_
    constructor
    · show (if c = _ then _ else _) = _
      rw [if_neg]
      rw [hs1next]
      exact Nat.ne_of_lt hc
    · rfl
  · show s.next ≤ _ + 1
    rw [hs1next]
    exact Nat.le_succ _
  · intro c hc
    rcases alSet_mem_snd g.genes conn _ c hc with h | h
    · exact Or.inl h
    · right
      rw [h]
      show _ ≤ (match alGet? g.routes conn.1 with
        | some c0 => writeRoutes s c0 ((s.routeCells c0).erase conn.2)
        | none => s).next
      rw [hs1next]

/-- The add-new-node routes fold of `intersect_connectionS` writes only
the listed routes cells and never moves the frontier. -/
theorem routesFold_locality (l : List (Nat × Nat)) (s : Store)
    (gene_id : Nat) (c : Nat) (hc : ∀ p ∈ l, p.2 ≠ c) :
    untouched s (l.foldl (fun st p =>
      writeRoutes st p.2 (insert gene_id (st.routeCells p.2))) s) c ∧
    (l.foldl (fun st p =>
      writeRoutes st p.2 (insert gene_id (st.routeCells p.2))) s).next =
      s.next := by
  induction l generalizing s with
  | nil => exact ⟨⟨rfl, rfl⟩, rfl⟩
  | cons p t ih =>
      rw [List.foldl_cons]
      have hp := hc p (List.mem_cons_self p t)
      have hw : untouched s (writeRoutes s p.2
          (insert gene_id (s.routeCells p.2))) c := by
        constructor
        · rfl
        · show (if c = p.2 then _ else s.routeCells c) = s.routeCells c
          rw [if_neg (fun he => hp he.symm)]
      have := ih (writeRoutes s p.2 (insert gene_id (s.routeCells p.2)))
        (fun q hq => hc q (List.mem_cons_of_mem p hq))
      exact ⟨untouched_trans hw this.1, this.2.trans rfl⟩

/-- `add_connectionS` leaves every cell that is neither a routes cell of
the operated genotype nor fresh untouched. -/
theorem add_connectionS_locality (st : Genetics) (s : Store)
    (g : HGenotype) (c1 c2 : Nat) (r : ℚ) (c : Nat)
    (hlt : c < s.next) (hcr : c ∉ g.routes.map Prod.snd) :
    untouched s (add_connectionS st s g c1 c2 r).2.1 c := by
  rw [add_connectionS]
  by_cases hin : (g.routes.filter
      (fun p => s.routeCells p.2 ≠ ∅)).map Prod.fst = []
  · simp only [hin, if_pos]
    exact ⟨rfl, rfl⟩
  · simp only [hin, if_neg, if_false]
    exact (insert_geneS_spec st s g _ none r).1 c hlt hcr

/-- `intersect_connectionS` leaves every cell that is neither a routes
cell of the operated genotype nor fresh untouched. -/
theorem intersect_connectionS_locality (st : Genetics) (s : Store)
    (g : HGenotype) (c0 : Nat) (c : Nat)
    (hlt : c < s.next) (hcr : c ∉ g.routes.map Prod.snd) :
    untouched s (intersect_connectionS st s g c0).2.1 c := by
  rw [intersect_connectionS]
  by_cases hconn : g.genes.map Prod.fst = []
  · simp only [hconn, if_pos]
    exact ⟨rfl, rfl⟩
  · simp only [hconn, if_neg, if_false]
    set conn := (g.genes.map Prod.fst).getD
      (c0 % (g.genes.map Prod.fst).length) (0, 0) with hconndef
    set gene_id := (s.geneCells ((alGet? g.genes conn).getD 0)).gene_id
      with hgid
    set g1 : HGenotype := { g with genes := alErase g.genes conn } with hg1
    have hg1r : g1.routes = g.routes := rfl
    -- restore-route step
    set s1 := (match alGet? g1.routes conn.1 with
      | some cc => writeRoutes s cc (insert conn.2 (s.routeCells cc))
      | none => s) with hs1
    have hu1 : untouched s s1 c := by
      rw [hs1]
      rcases halg : alGet? g1.routes conn.1 with _ | cc
      · exact ⟨rfl, rfl⟩
      · have hmem := alGet?_mem_snd g1.routes conn.1 cc halg
        rw [hg1r] at hmem
        constructor
        · rfl
        · show (if c = cc then _ else s.routeCells c) = s.routeCells c
          rw [if_neg (fun (he : c = cc) => hcr (he ▸ hmem))]
    have hs1next : s1.next = s.next := by
      rw [hs1]
      rcases alGet? g1.routes conn.1 with _ | cc
      · rfl
      · rfl
    -- add-to-all-routes step
    set s2 := g1.routes.foldl (fun st p =>
      writeRoutes st p.2 (insert gene_id (st.routeCells p.2))) s1 with hs2
    have hfold := routesFold_locality g1.routes s1 gene_id c
      (by
        intro p hp (he : p.2 = c)
        apply hcr
        rw [← he, ← hg1r]
        exact List.mem_map_of_mem Prod.snd hp)
    have hu2 : untouched s1 s2 c := hfold.1
    have hs2next : s2.next = s.next := by rw [hs2, hfold.2, hs1next]
    -- fresh routes cell for the new node
    set a := allocRoutes s2 (g.hidden_nodes ∪ g.output_nodes) with ha
    have hu3 : untouched s2 a.1 c := by
      constructor
      · rfl
      · show (if c = s2.next then _ else s2.routeCells c) = s2.routeCells c
        rw [if_neg (by rw [hs2next]; exact Nat.ne_of_lt hlt)]
    have ha1next : a.1.next = s.next + 1 := by
      show s2.next + 1 = s.next + 1
      rw [hs2next]
    set g2 : HGenotype := { g1 with routes := alSet g1.routes gene_id a.2 }
      with hg2
    have hg2r : ∀ cc ∈ g2.routes.map Prod.snd,
        cc ∈ g.routes.map Prod.snd ∨ cc = a.2 := by
      intro cc hcc
      rcases alSet_mem_snd g1.routes gene_id a.2 cc hcc with h | h
      · left
        rw [← hg1r]
        exact h
      · exact Or.inr h
    have ha2 : a.2 = s2.next := rfl
    have hcng2 : c ∉ g2.routes.map Prod.snd := by
      intro habs
      rcases hg2r c habs with h | h
      · exact hcr h
      · rw [ha2, hs2next] at h
        exact Nat.ne_of_lt hlt h
    -- first insertion
    set r1 := insert_geneS st a.1 g2 (conn.1, gene_id) (some 1) 0 with hr1
    have hi1 := insert_geneS_spec st a.1 g2 (conn.1, gene_id) (some 1) 0
    have hu4 : untouched a.1 r1.2.1 c :=
      hi1.1 c (by rw [ha1next]; exact Nat.lt_succ_of_lt hlt) hcng2
    -- second insertion
    have hcr1 : c ∉ r1.2.2.routes.map Prod.snd := by
      rw [hr1, hi1.2.2.1]
      exact hcng2
    have hlt1 : c < r1.2.1.next :=
      lt_of_lt_of_le (by rw [ha1next]; exact Nat.lt_succ_of_lt hlt)
        hi1.2.1
    have hi2 := insert_geneS_spec r1.1 r1.2.1 r1.2.2
      (gene_id, conn.2) (some (s.geneCells
        ((alGet? g.genes conn).getD 0)).weight) 0
    have hu5 : untouched r1.2.1 (insert_geneS r1.1 r1.2.1 r1.2.2
        (gene_id, conn.2) (some (s.geneCells
          ((alGet? g.genes conn).getD 0)).weight) 0).2.1 c :=
      hi2.1 c hlt1 hcr1
    exact untouched_trans hu1 (untouched_trans hu2
      (untouched_trans hu3 (untouched_trans hu4 hu5)))

/-- Cellwise agreement on a genotype's cells gives equal observations. -/
theorem obs_congr (s s' : Store) (g : HGenotype)
    (hg : ∀ cell ∈ g.genes.map Prod.snd, untouched s s' cell)
    (hr : ∀ cell ∈ g.routes.map Prod.snd, untouched s s' cell) :
    obsGenes s' g = obsGenes s g ∧ obsRoutes s' g = obsRoutes s g := by
  constructor
  · apply List.map_congr_left
    intro p hp
    rw [(hg p.2 (List.mem_map_of_mem Prod.snd hp)).1]
  · apply List.map_congr_left
    intro p hp
    rw [(hr p.2 (List.mem_map_of_mem Prod.snd hp)).2]

/-- C8: after `copy()`, the three mutation operators (in-place weight
perturbation, `add_connection`, `intersect_connection`) applied to the
copy leave the source genotype's observable state — its node sets (held by
value), its gene map with all gene weights, and its routes map — exactly
as it was: the copy shares no gene or routes cell with the source. -/
theorem copy_independence (s : Store) (g : HGenotype) (hv : HValid s g)
    (st : Genetics) (ρ : MutRand) (c1 c2 : Nat) (r : ℚ) (c0 : Nat) :
    (obsGenes (weightMutateS (HGenotype.copy s g).1
        (HGenotype.copy s g).2 ρ) g = obsGenes s g ∧
      obsRoutes (weightMutateS (HGenotype.copy s g).1
        (HGenotype.copy s g).2 ρ) g = obsRoutes s g) ∧
    (obsGenes (add_connectionS st (HGenotype.copy s g).1
        (HGenotype.copy s g).2 c1 c2 r).2.1 g = obsGenes s g ∧
      obsRoutes (add_connectionS st (HGenotype.copy s g).1
        (HGenotype.copy s g).2 c1 c2 r).2.1 g = obsRoutes s g) ∧
    (obsGenes (intersect_connectionS st (HGenotype.copy s g).1
        (HGenotype.copy s g).2 c0).2.1 g = obsGenes s g ∧
      obsRoutes (intersect_connectionS st (HGenotype.copy s g).1
        (HGenotype.copy s g).2 c0).2.1 g = obsRoutes s g) := by
  have hcp := copy_spec s g
  have hnotg : ∀ cell, cell < s.next →
      cell ∉ (HGenotype.copy s g).2.genes.map Prod.snd := by
    intro cell hlt habs
    exact absurd (hcp.2.2.1 cell habs) (Nat.not_le_of_lt hlt)
  have hnotr : ∀ cell, cell < s.next →
      cell ∉ (HGenotype.copy s g).2.routes.map Prod.snd := by
    intro cell hlt habs
    exact absurd (hcp.2.2.2 cell habs) (Nat.not_le_of_lt hlt)
  have hmapenum : ((HGenotype.copy s g).2.genes.enum).map
      (fun q => q.2.2) = (HGenotype.copy s g).2.genes.map Prod.snd := by
    rw [show (fun q : Nat × ((Nat × Nat) × Nat) => q.2.2) =
      (Prod.snd ∘ Prod.snd) from rfl]
    rw [← List.map_map, List.enum_map_snd]
  have hweight : ∀ cell, cell < s.next →
      untouched s (weightMutateS (HGenotype.copy s g).1
        (HGenotype.copy s g).2 ρ) cell := by
    intro cell hlt
    refine untouched_trans (hcp.2.1 cell hlt) ?_
    apply (weightFold_locality _ _ _ _ ?_).1
    intro p hp habs
    apply hnotg cell hlt
    rw [← habs, ← hmapenum]
    exact List.mem_map_of_mem (fun q => q.2.2) hp
  have hadd : ∀ cell, cell < s.next →
      untouched s (add_connectionS st (HGenotype.copy s g).1
        (HGenotype.copy s g).2 c1 c2 r).2.1 cell := by
    intro cell hlt
    refine untouched_trans (hcp.2.1 cell hlt) ?_
    exact add_connectionS_locality st _ _ c1 c2 r cell
      (lt_of_lt_of_le hlt hcp.1) (hnotr cell hlt)
  have hint : ∀ cell, cell < s.next →
      untouched s (intersect_connectionS st (HGenotype.copy s g).1
        (HGenotype.copy s g).2 c0).2.1 cell := by
    intro cell hlt
    refine untouched_trans (hcp.2.1 cell hlt) ?_
    exact intersect_connectionS_locality st _ _ c0 cell
      (lt_of_lt_of_le hlt hcp.1) (hnotr cell hlt)
  refine ⟨?_, ?_, ?_⟩
  · exact obs_congr s _ g
      (fun cell hc => hweight cell (hv.1 cell hc))
      (fun cell hc => hweight cell (hv.2 cell hc))
  · exact obs_congr s _ g
      (fun cell hc => hadd cell (hv.1 cell hc))
      (fun cell hc => hadd cell (hv.2 cell hc))
  · exact obs_congr s _ g
      (fun cell hc => hint cell (hv.1 cell hc))
      (fun cell hc => hint cell (hv.2 cell hc))

/-- Witness for C8 at a concrete input: a one-gene genotype in a two-cell
store; the weight-mutation of the copy leaves the source's observable
gene map unchanged. -/
theorem copy_independence_witness :
    obsGenes (weightMutateS (HGenotype.copy
        ⟨fun _ => ⟨3, 5⟩, fun _ => {2}, 2⟩
        ⟨Finset.range 2, Finset.Ico 2 3, ∅, [((0, 2), 0)], [(0, 1)]⟩).1
      (HGenotype.copy ⟨fun _ => ⟨3, 5⟩, fun _ => {2}, 2⟩
        ⟨Finset.range 2, Finset.Ico 2 3, ∅, [((0, 2), 0)], [(0, 1)]⟩).2
      ⟨0, fun _ => 0, fun _ => 1, 1, 0, 0, 0, 1, 0⟩)
      ⟨Finset.range 2, Finset.Ico 2 3, ∅, [((0, 2), 0)], [(0, 1)]⟩ =
    obsGenes ⟨fun _ => ⟨3, 5⟩, fun _ => {2}, 2⟩
      ⟨Finset.range 2, Finset.Ico 2 3, ∅, [((0, 2), 0)], [(0, 1)]⟩ :=
  (copy_independence ⟨fun _ => ⟨3, 5⟩, fun _ => {2}, 2⟩
    ⟨Finset.range 2, Finset.Ico 2 3, ∅, [((0, 2), 0)], [(0, 1)]⟩
    ⟨by intro c hc; simp at hc; subst hc; decide,
     by intro c hc; simp at hc; subst hc; decide⟩
    reg0 ⟨0, fun _ => 0, fun _ => 1, 1, 0, 0, 0, 1, 0⟩ 0 0 0 0).1.1

/-! ## C10: gene endpoint invariant over all reachable genotypes -/

theorem alGet?_some_mem {κ β : Type} [DecidableEq κ]
    (l : List (κ × β)) (k : κ) (v : β) (h : alGet? l k = some v) :
    (k, v) ∈ l := by
  induction l with
  | nil => simp [alGet?] at h
  | cons p t ih =>
      obtain ⟨pk, pv⟩ := p
      by_cases hk : pk = k
      · subst hk
        rw [show alGet? ((pk, pv) :: t) pk = some pv by
          simp [alGet?]] at h
        simp [Option.some.inj h]
      · rw [show alGet? ((pk, pv) :: t) k = alGet? t k by
          simp [alGet?, hk]] at h
        exact List.mem_cons_of_mem _ (ih h)

theorem alGet?_eq_of_nodup_mem {κ β : Type} [DecidableEq κ]
    (l : List (κ × β)) (k : κ) (v : β)
    (hnd : (l.map Prod.fst).Nodup) (h : (k, v) ∈ l) :
    alGet? l k = some v := by
  induction l with
  | nil => simp at h
  | cons p t ih =>
      obtain ⟨pk, pv⟩ := p
      rw [List.map_cons, List.nodup_cons] at hnd
      rcases List.mem_cons.1 h with h | h
      · have hk : pk = k := (congrArg Prod.fst h).symm
        have hv : pv = v := (congrArg Prod.snd h).symm
        subst hk
        subst hv
        simp [alGet?]
      · have hk : ¬ pk = k := by
          intro he
          apply hnd.1
          have := List.mem_map_of_mem Prod.fst h
          rw [he]
          simpa using this
        rw [show alGet? ((pk, pv) :: t) k = alGet? t k by
          simp [alGet?, hk]]
        exact ih hnd.2 h

theorem alSet_mem {κ β : Type} [DecidableEq κ]
    (l : List (κ × β)) (k : κ) (v : β) (kv : κ × β)
    (h : kv ∈ alSet l k v) : kv ∈ l ∨ kv = (k, v) := by
  induction l with
  | nil =>
      rw [show alSet ([] : List (κ × β)) k v = [(k, v)] from rfl] at h
      right
      simpa using h
  | cons p t ih =>
      obtain ⟨pk, pv⟩ := p
      by_cases hk : pk = k
      · subst hk
        rw [show alSet ((pk, pv) :: t) pk v = (pk, v) :: t by
          simp [alSet]] at h
        rcases List.mem_cons.1 h with h | h
        · exact Or.inr h
        · exact Or.inl (List.mem_cons_of_mem _ h)
      · rw [show alSet ((pk, pv) :: t) k v = (pk, pv) :: alSet t k v by
          simp [alSet, hk]] at h
        rcases List.mem_cons.1 h with h | h
        · exact Or.inl (h ▸ List.mem_cons_self _ _)
        · rcases ih h with h' | h'
          · exact Or.inl (List.mem_cons_of_mem _ h')
          · exact Or.inr h'

theorem alUpdate_mem {κ β : Type} [DecidableEq κ]
    (l : List (κ × β)) (k : κ) (f : β → β) (kv : κ × β)
    (h : kv ∈ alUpdate l k f) :
    kv ∈ l ∨ ∃ v, (k, v) ∈ l ∧ kv = (k, f v) := by
  induction l with
  | nil => simp [alUpdate] at h
  | cons p t ih =>
      obtain ⟨pk, pv⟩ := p
      by_cases hk : pk = k
      · subst hk
        rw [show alUpdate ((pk, pv) :: t) pk f = (pk, f pv) :: t by
          simp [alUpdate]] at h
        rcases List.mem_cons.1 h with h | h
        · exact Or.inr ⟨pv, List.mem_cons_self _ _, h⟩
        · exact Or.inl (List.mem_cons_of_mem _ h)
      · rw [show alUpdate ((pk, pv) :: t) k f =
            (pk, pv) :: alUpdate t k f by simp [alUpdate, hk]] at h
        rcases List.mem_cons.1 h with h | h
        · exact Or.inl (h ▸ List.mem_cons_self _ _)
        · rcases ih h with h' | ⟨v, hv, he⟩
          · exact Or.inl (List.mem_cons_of_mem _ h')
          · exact Or.inr ⟨v, List.mem_cons_of_mem _ hv, he⟩

theorem alErase_mem {κ β : Type} [DecidableEq κ]
    (l : List (κ × β)) (k : κ) (kv : κ × β) (h : kv ∈ alErase l k) :
    kv ∈ l ∧ kv.1 ≠ k := by
  have := List.mem_filter.1 h
  exact ⟨this.1, by simpa using this.2⟩

theorem alUpdate_keys {κ β : Type} [DecidableEq κ]
    (l : List (κ × β)) (k : κ) (f : β → β) :
    (alUpdate l k f).map Prod.fst = l.map Prod.fst := by
  induction l with
  | nil => rfl
  | cons p t ih =>
      obtain ⟨pk, pv⟩ := p
      by_cases hk : pk = k
      · subst hk
        simp [alUpdate]
      · simp [alUpdate, hk, ih]

theorem alSet_keys_nodup {κ β : Type} [DecidableEq κ]
    (l : List (κ × β)) (k : κ) (v : β)
    (hnd : (l.map Prod.fst).Nodup) :
    ((alSet l k v).map Prod.fst).Nodup ∧
    (∀ k', k' ∈ (alSet l k v).map Prod.fst →
      k' ∈ l.map Prod.fst ∨ k' = k) := by
  induction l with
  | nil =>
      constructor
      · simp [alSet]
      · intro k' h
        right
        simpa [alSet] using h
  | cons p t ih =>
      obtain ⟨pk, pv⟩ := p
      rw [List.map_cons, List.nodup_cons] at hnd
      by_cases hk : pk = k
      · subst hk
        rw [show alSet ((pk, pv) :: t) pk v = (pk, v) :: t by
          simp [alSet]]
        constructor
        · rw [List.map_cons]
          exact List.nodup_cons.2 hnd
        · intro k' h
          exact Or.inl (by simpa using h)
      · rw [show alSet ((pk, pv) :: t) k v = (pk, pv) :: alSet t k v by
          simp [alSet, hk]]
        have iht := ih hnd.2
        constructor
        · rw [List.map_cons]
          apply List.nodup_cons.2
          constructor
          · intro habs
            rcases iht.2 pk habs with h' | h'
            · exact hnd.1 h'
            · exact hk h'
          · exact iht.1
        · intro k' h
          rw [List.map_cons, List.mem_cons] at h
          rcases h with h | h
          · exact Or.inl (by simp [h])
          · rcases iht.2 k' h with h' | h'
            · exact Or.inl (List.mem_cons_of_mem _ h')
            · exact Or.inr h'

theorem alErase_keys_nodup {κ β : Type} [DecidableEq κ]
    (l : List (κ × β)) (k : κ) (hnd : (l.map Prod.fst).Nodup) :
    ((alErase l k).map Prod.fst).Nodup := by
  induction l with
  | nil => simp [alErase]
  | cons p t ih =>
      obtain ⟨pk, pv⟩ := p
      rw [List.map_cons, List.nodup_cons] at hnd
      by_cases hk : pk = k
      · rw [show alErase ((pk, pv) :: t) k = alErase t k by
          simp [alErase, List.filter_cons, hk]]
        exact ih hnd.2
      · rw [show alErase ((pk, pv) :: t) k = (pk, pv) :: alErase t k by
          simp [alErase, List.filter_cons, hk]]
        rw [List.map_cons]
        apply List.nodup_cons.2
        refine ⟨?_, ih hnd.2⟩
        intro habs
        rcases List.mem_map.1 habs with ⟨q, hq, he⟩
        exact hnd.1 (he ▸ List.mem_map_of_mem Prod.fst
          (alErase_mem t k q hq).1)

theorem getD_mem_of_lt {α : Type} (l : List α) (i : Nat) (d : α)
    (h : i < l.length) : l.getD i d ∈ l := by
  rw [List.getD_eq_getElem l d h]
  exact List.getElem_mem h

/-- Registry invariant of a run over `ni` inputs and `no` outputs (as
`NEAT.__init__` leaves it: counter `ni + no`, nothing recorded): every
recorded id points back to its pair and lies in `[ni + no, counter)`. -/
def RegInvN (ni no : Nat) (reg : Genetics) : Prop :=
  ni + no ≤ reg.innovation ∧
  ∀ p x, x ∈ reg.pairIds p →
    reg.idPair x = some p ∧ ni + no ≤ x ∧ x < reg.innovation

/-- Registry extension: the counter never decreases and the pair recorded
for an already-minted id never changes. -/
def Genetics.ext (r r' : Genetics) : Prop :=
  r.innovation ≤ r'.innovation ∧
  ∀ x, x < r.innovation → r'.idPair x = r.idPair x

theorem Genetics.ext_refl (r : Genetics) : Genetics.ext r r :=
  ⟨le_refl _, fun _ _ => rfl⟩

theorem Genetics.ext_trans {r1 r2 r3 : Genetics}
    (h1 : Genetics.ext r1 r2) (h2 : Genetics.ext r2 r3) :
    Genetics.ext r1 r3 :=
  ⟨le_trans h1.1 h2.1,
   fun x hx => (h2.2 x (lt_of_lt_of_le hx h1.1)).trans (h1.2 x hx)⟩

/-- Per-genotype invariant of a run over `ni` inputs and `no` outputs,
relative to the current registry: input/output id ranges are the founder's,
hidden ids are former innovation ids, every gene runs from an input or
hidden node to a hidden or output node (never a self-loop) and carries a
registered id that is not a hidden node of this genotype, and the routes
dict has unique keys mapping live source nodes to available non-source
targets. -/
def GTInv (ni no : Nat) (reg : Genetics) (g : Genotype) : Prop :=
  g.input_nodes = Finset.range ni ∧
  g.output_nodes = Finset.Ico ni (ni + no) ∧
  (∀ h ∈ g.hidden_nodes, ni + no ≤ h ∧ h < reg.innovation) ∧
  (∀ kv ∈ g.genes,
    kv.1.1 ∈ g.input_nodes ∪ g.hidden_nodes ∧
    kv.1.2 ∈ g.hidden_nodes ∪ g.output_nodes ∧
    kv.1.1 ≠ kv.1.2 ∧
    ni + no ≤ kv.2.gene_id ∧ kv.2.gene_id < reg.innovation ∧
    kv.2.gene_id ∉ g.hidden_nodes ∧
    reg.idPair kv.2.gene_id = some kv.1) ∧
  (∀ rv ∈ g.routes,
    rv.1 ∈ g.input_nodes ∪ g.hidden_nodes ∧
    (∀ o ∈ rv.2, o ∈ g.hidden_nodes ∪ g.output_nodes) ∧
    rv.1 ∉ rv.2) ∧
  (g.routes.map Prod.fst).Nodup

/-- `GTInv` transports along registry extension. -/
theorem GTInv_mono (ni no : Nat) (reg reg' : Genetics) (g : Genotype)
    (hext : Genetics.ext reg reg') (h : GTInv ni no reg g) :
    GTInv ni no reg' g := by
  obtain ⟨h1, h2, h3, h4, h5, h6⟩ := h
  refine ⟨h1, h2, ?_, ?_, h5, h6⟩
  · intro x hx
    exact ⟨(h3 x hx).1, lt_of_lt_of_le (h3 x hx).2 hext.1⟩
  · intro kv hkv
    obtain ⟨g1, g2, g3, g4, g5, g6, g7⟩ := h4 kv hkv
    exact ⟨g1, g2, g3, g4, lt_of_lt_of_le g5 hext.1, g6,
      (hext.2 _ g5).trans g7⟩

/-- `resolveId` extends the registry. -/
theorem resolveId_ext (st : Genetics) (hidden : Finset Nat)
    (conn : Nat × Nat) :
    Genetics.ext st (resolveId st hidden conn).1 := by
  rcases resolveId_mint_or_reuse st hidden conn with
    ⟨_, hinn, _, hx, _, _⟩ | ⟨heq, _, _⟩
  · exact ⟨by rw [hinn]; exact Nat.le_succ _,
      fun x hxlt => hx x (Nat.ne_of_lt hxlt)⟩
  · rw [heq]
    exact Genetics.ext_refl st

/-- `resolveId` preserves the run registry invariant. -/
theorem RegInvN_resolveId (ni no : Nat) (st : Genetics)
    (hidden : Finset Nat) (conn : Nat × Nat) (hreg : RegInvN ni no st) :
    RegInvN ni no (resolveId st hidden conn).1 := by
  rcases resolveId_mint_or_reuse st hidden conn with
    ⟨_, hinn, hp, hx, hidp, hpc⟩ | ⟨heq, _, _⟩
  · constructor
    · rw [hinn]
      exact le_trans hreg.1 (Nat.le_succ _)
    · intro p x hxm
      by_cases hpc' : p = conn
      · subst hpc'
        rw [hpc] at hxm
        rcases List.mem_append.1 hxm with hold | hnew
        · have hw := hreg.2 p x hold
          exact ⟨by rw [hx x (Nat.ne_of_lt hw.2.2)]; exact hw.1, hw.2.1,
            by rw [hinn]; exact Nat.lt_succ_of_lt hw.2.2⟩
        · have hxe : x = st.innovation := by simpa using hnew
          subst hxe
          exact ⟨hidp, hreg.1, by rw [hinn]; exact Nat.lt_succ_self _⟩
      · rw [hp p hpc'] at hxm
        have hw := hreg.2 p x hxm
        exact ⟨by rw [hx x (Nat.ne_of_lt hw.2.2)]; exact hw.1, hw.2.1,
          by rw [hinn]; exact Nat.lt_succ_of_lt hw.2.2⟩
  · rw [heq]
    exact hreg

/-- Facts about the id `resolveId` returns, when every hidden id of the
caller lies below the counter. -/
theorem resolveId_id_facts (ni no : Nat) (st : Genetics)
    (hidden : Finset Nat) (conn : Nat × Nat) (hreg : RegInvN ni no st)
    (hhid : ∀ h ∈ hidden, h < st.innovation) :
    ni + no ≤ (resolveId st hidden conn).2 ∧
    (resolveId st hidden conn).2 < (resolveId st hidden conn).1.innovation ∧
    (resolveId st hidden conn).2 ∉ hidden ∧
    (resolveId st hidden conn).1.idPair (resolveId st hidden conn).2 =
      some conn := by
  rcases resolveId_mint_or_reuse st hidden conn with
    ⟨ha, hinn, _, _, hidp, _⟩ | ⟨heq, hmem, hnh⟩
  · rw [ha, hinn]
    exact ⟨hreg.1, Nat.lt_succ_self _,
      fun habs => absurd (hhid _ habs) (lt_irrefl _), hidp⟩
  · have hw := hreg.2 conn _ hmem
    rw [heq]
    exact ⟨hw.2.1, hw.2.2, hnh, hw.1⟩

/-- `insert_gene` preserves both invariants when handed a legal pair
(source node live, target node available, no self-loop). -/
theorem insert_gene_inv (ni no : Nat) (st : Genetics) (g : Genotype)
    (conn : Nat × Nat) (w : Option ℚ) (r : ℚ)
    (hreg : RegInvN ni no st) (hgt : GTInv ni no st g)
    (hc1 : conn.1 ∈ g.input_nodes ∪ g.hidden_nodes)
    (hc2 : conn.2 ∈ g.hidden_nodes ∪ g.output_nodes)
    (hcne : conn.1 ≠ conn.2) :
    RegInvN ni no (g.insert_gene st conn w r).1 ∧
    GTInv ni no (g.insert_gene st conn w r).1
      (g.insert_gene st conn w r).2 ∧
    Genetics.ext st (g.insert_gene st conn w r).1 := by
  rw [insert_gene_fst]
  have hhidlt : ∀ h ∈ g.hidden_nodes, h < st.innovation :=
    fun h hh => (hgt.2.2.1 h hh).2
  have hreg' := RegInvN_resolveId ni no st g.hidden_nodes conn hreg
  have hext := resolveId_ext st g.hidden_nodes conn
  have hid := resolveId_id_facts ni no st g.hidden_nodes conn hreg hhidlt
  have hgt' := GTInv_mono ni no st _ g hext hgt
  refine ⟨hreg', ?_, hext⟩
  obtain ⟨h1, h2, h3, h4, h5, h6⟩ := hgt'
  have hginput : (g.insert_gene st conn w r).2.input_nodes =
      g.input_nodes := rfl
  have hgoutput : (g.insert_gene st conn w r).2.output_nodes =
      g.output_nodes := rfl
  have hghidden : (g.insert_gene st conn w r).2.hidden_nodes =
      g.hidden_nodes := rfl
  have hggenes : (g.insert_gene st conn w r).2.genes =
      alSet g.genes conn ⟨(resolveId st g.hidden_nodes conn).2,
        w.getD (r - 1/2)⟩ := rfl
  have hgroutes : (g.insert_gene st conn w r).2.routes =
      alUpdate g.routes conn.1 (fun s => s.erase conn.2) := rfl
  refine ⟨by rw [hginput]; exact h1, by rw [hgoutput]; exact h2,
    by rw [hghidden]; exact h3, ?_, ?_, ?_⟩
  · intro kv hkv
    rw [hggenes] at hkv
    rw [hginput, hgoutput, hghidden]
    rcases alSet_mem _ _ _ _ hkv with hold | hnew
    · exact h4 kv hold
    · subst hnew
      exact ⟨hc1, hc2, hcne, hid.1, hid.2.1, hid.2.2.1, hid.2.2.2⟩
  · intro rv hrv
    rw [hgroutes] at hrv
    rw [hginput, hghidden, hgoutput]
    rcases alUpdate_mem _ _ _ _ hrv with hold | ⟨v, hv, he⟩
    · exact h5 rv hold
    · subst he
      obtain ⟨k1, k2, k3⟩ := h5 (conn.1, v) hv
      exact ⟨k1, fun o ho => k2 o (Finset.mem_of_mem_erase ho),
        fun habs => k3 (Finset.mem_of_mem_erase habs)⟩
  · rw [hgroutes, alUpdate_keys]
    exact h6

/-- `add_connection` preserves both invariants. -/
theorem add_connection_inv (ni no : Nat) (st : Genetics) (g : Genotype)
    (c1 c2 : Nat) (r : ℚ)
    (hreg : RegInvN ni no st) (hgt : GTInv ni no st g) :
    RegInvN ni no (g.add_connection st c1 c2 r).1 ∧
    GTInv ni no (g.add_connection st c1 c2 r).1
      (g.add_connection st c1 c2 r).2 ∧
    Genetics.ext st (g.add_connection st c1 c2 r).1 := by
  rw [Genotype.add_connection]
  by_cases hin : (g.routes.filter (fun p => p.2 ≠ ∅)).map Prod.fst = []
  · simp only [hin, if_pos]
    exact ⟨hreg, hgt, Genetics.ext_refl st⟩
  · simp only [hin, if_neg, if_false]
    set ins := ((g.routes.filter (fun p => p.2 ≠ ∅)).map Prod.fst)
      with hins
    have hlen : 0 < ins.length := List.length_pos.2 hin
    have hinmem : ins.getD (c1 % ins.length) 0 ∈ ins :=
      getD_mem_of_lt _ _ _ (Nat.mod_lt _ hlen)
    rcases List.mem_map.1 hinmem with ⟨rv, hrvf, hrve⟩
    have hrv := List.mem_filter.1 hrvf
    have hrvmem : rv ∈ g.routes := hrv.1
    have hrvne : rv.2 ≠ ∅ := by simpa using hrv.2
    have halg : alGet? g.routes rv.1 = some rv.2 := by
      have := alGet?_eq_of_nodup_mem g.routes rv.1 rv.2
        hgt.2.2.2.2.2 (by rw [show ((rv.1, rv.2) : Nat × Finset Nat)
          = rv from rfl]; exact hrvmem)
      exact this
    rw [← hrve, halg]
    simp only [Option.getD_some]
    have hsne : sortedNodes rv.2 ≠ [] := by
      intro habs
      apply hrvne
      rcases Finset.eq_empty_or_nonempty rv.2 with he | ⟨x, hx⟩
      · exact he
      · exfalso
        have hxmem : x ∈ sortedNodes rv.2 := by
          rw [sortedNodes]
          rw [List.mem_filter]
          constructor
          · rw [List.mem_range]
            exact Nat.lt_succ_of_le (Finset.le_sup (f := id) hx)
          · simpa using hx
        rw [habs] at hxmem
        simp at hxmem
    have hslen : 0 < (sortedNodes rv.2).length :=
      List.length_pos.2 hsne
    have houtmem : (sortedNodes rv.2).getD
        (c2 % (sortedNodes rv.2).length) 0 ∈ sortedNodes rv.2 :=
      getD_mem_of_lt _ _ _ (Nat.mod_lt _ hslen)
    have houtset : (sortedNodes rv.2).getD
        (c2 % (sortedNodes rv.2).length) 0 ∈ rv.2 := by
      have := List.mem_filter.1 houtmem
      simpa using this.2
    obtain ⟨k1, k2, k3⟩ := hgt.2.2.2.2.1 rv hrvmem
    exact insert_gene_inv ni no st g _ none r hreg hgt k1
      (k2 _ houtset) (fun habs => k3 (habs ▸ houtset))

/-- `intersect_connection` preserves both invariants. -/
theorem intersect_connection_inv (ni no : Nat) (st : Genetics)
    (g : Genotype) (c : Nat)
    (hreg : RegInvN ni no st) (hgt : GTInv ni no st g) :
    RegInvN ni no (Genotype.intersect_connection st g c).1 ∧
    GTInv ni no (Genotype.intersect_connection st g c).1
      (Genotype.intersect_connection st g c).2 ∧
    Genetics.ext st (Genotype.intersect_connection st g c).1 := by
  by_cases hconn0 : g.genes.map Prod.fst = []
  · have hnoop : Genotype.intersect_connection st g c = (st, g) := by
      simp [Genotype.intersect_connection, hconn0]
    rw [hnoop]
    exact ⟨hreg, hgt, Genetics.ext_refl st⟩
  · have hne : g.genes ≠ [] := by
      intro habs
      apply hconn0
      rw [habs]
      rfl
    have hklen : 0 < (g.genes.map Prod.fst).length :=
      List.length_pos.2 hconn0
    set conn := (g.genes.map Prod.fst).getD
      (c % (g.genes.map Prod.fst).length) (0, 0) with hconndef
    have hkmem : conn ∈ g.genes.map Prod.fst :=
      getD_mem_of_lt _ _ _ (Nat.mod_lt _ hklen)
    have hsome := alGet?_isSome_of_mem_keys g.genes conn hkmem
    rcases Option.isSome_iff_exists.1 hsome with ⟨gene, hget⟩
    have hkvmem : (conn, gene) ∈ g.genes := alGet?_some_mem _ _ _ hget
    obtain ⟨h1, h2, h3, h4, h5, h6⟩ := hgt
    obtain ⟨e1, e2, e3, e4, e5, e6, e7⟩ := h4 (conn, gene) hkvmem
    replace e1 : conn.1 ∈ g.input_nodes ∪ g.hidden_nodes := e1
    replace e2 : conn.2 ∈ g.hidden_nodes ∪ g.output_nodes := e2
    replace e3 : conn.1 ≠ conn.2 := e3
    replace e4 : ni + no ≤ gene.gene_id := e4
    replace e5 : gene.gene_id < st.innovation := e5
    replace e6 : gene.gene_id ∉ g.hidden_nodes := e6
    replace e7 : st.idPair gene.gene_id = some conn := e7
    have hIlt : ∀ x ∈ g.input_nodes, x < ni := by
      intro x hx
      rw [h1] at hx
      exact Finset.mem_range.1 hx
    have hObd : ∀ x ∈ g.output_nodes, ni ≤ x ∧ x < ni + no := by
      intro x hx
      rw [h2] at hx
      exact Finset.mem_Ico.1 hx
    have hki : gene.gene_id ≠ conn.1 := by
      rcases Finset.mem_union.1 e1 with hI | hH
      · intro he
        have hlt := hIlt _ hI
        omega
      · intro he
        rw [he] at e6
        exact e6 hH
    have hko : gene.gene_id ≠ conn.2 := by
      rcases Finset.mem_union.1 e2 with hH | hO
      · intro he
        rw [he] at e6
        exact e6 hH
      · intro he
        have hlt := (hObd _ hO).2
        omega
    have hkO : gene.gene_id ∉ g.output_nodes := by
      intro habs
      have := (hObd _ habs).2
      omega
    rw [intersect_connection_eq st g c conn gene hne hconndef.symm hget]
    have hhidlt : ∀ h ∈ g.hidden_nodes, h < st.innovation :=
      fun h hh => (h3 h hh).2
    have hext1 := resolveId_ext st g.hidden_nodes (conn.1, gene.gene_id)
    have hregA := RegInvN_resolveId ni no st g.hidden_nodes
      (conn.1, gene.gene_id) hreg
    have hidf1 := resolveId_id_facts ni no st g.hidden_nodes
      (conn.1, gene.gene_id) hreg hhidlt
    have hhidlt1 : ∀ h ∈ g.hidden_nodes,
        h < (resolveId st g.hidden_nodes
          (conn.1, gene.gene_id)).1.innovation :=
      fun h hh => lt_of_lt_of_le (hhidlt h hh) hext1.1
    have hext2 := resolveId_ext
      (resolveId st g.hidden_nodes (conn.1, gene.gene_id)).1
      g.hidden_nodes (gene.gene_id, conn.2)
    have hregB := RegInvN_resolveId ni no
      (resolveId st g.hidden_nodes (conn.1, gene.gene_id)).1
      g.hidden_nodes (gene.gene_id, conn.2) hregA
    have hidf2 := resolveId_id_facts ni no
      (resolveId st g.hidden_nodes (conn.1, gene.gene_id)).1
      g.hidden_nodes (gene.gene_id, conn.2) hregA hhidlt1
    have hext := Genetics.ext_trans hext1 hext2
    set k := gene.gene_id with hkdef
    set reg1 := (resolveId st g.hidden_nodes (conn.1, k)).1 with hreg1def
    set id1 := (resolveId st g.hidden_nodes (conn.1, k)).2 with hid1def
    set reg2 := (resolveId reg1 g.hidden_nodes (k, conn.2)).1 with hreg2def
    set id2 := (resolveId reg1 g.hidden_nodes (k, conn.2)).2 with hid2def
    have hid1nek : id1 ≠ k := by
      intro he
      have hp1 := hidf1.2.2.2
      rw [he] at hp1
      rw [hext1.2 k e5] at hp1
      rw [e7] at hp1
      exact hko (congrArg Prod.snd (Option.some.inj hp1)).symm
    have hid2nek : id2 ≠ k := by
      intro he
      have hp2 := hidf2.2.2.2
      rw [he] at hp2
      rw [hext2.2 k (lt_of_lt_of_le e5 hext1.1), hext1.2 k e5] at hp2
      rw [e7] at hp2
      exact hki (congrArg Prod.fst (Option.some.inj hp2)).symm
    refine ⟨hregB, ?_, hext⟩
    refine ⟨h1, h2, ?_, ?_, ?_, ?_⟩
    · intro x hx
      rcases Finset.mem_insert.1 hx with he | hx
      · subst he
        exact ⟨e4, lt_of_lt_of_le e5 hext.1⟩
      · exact ⟨(h3 x hx).1, lt_of_lt_of_le (h3 x hx).2 hext.1⟩
    · intro kv hkv
      rcases alSet_mem _ _ _ _ hkv with hkv | he2
      · rcases alSet_mem _ _ _ _ hkv with hkv | he1
        · obtain ⟨hmem, hne'⟩ := alErase_mem _ _ _ hkv
          obtain ⟨a1, a2, a3, a4, a5, a6, a7⟩ := h4 kv hmem
          refine ⟨?_, ?_, a3, a4, lt_of_lt_of_le a5 hext.1, ?_, ?_⟩
          · rcases Finset.mem_union.1 a1 with hI | hH
            · exact Finset.mem_union_left _ hI
            · exact Finset.mem_union_right _ (Finset.mem_insert_of_mem hH)
          · rcases Finset.mem_union.1 a2 with hH | hO
            · exact Finset.mem_union_left _ (Finset.mem_insert_of_mem hH)
            · exact Finset.mem_union_right _ hO
          · intro habs
            rcases Finset.mem_insert.1 habs with he | hh
            · rw [he] at a7
              rw [e7] at a7
              exact hne' (Option.some.inj a7).symm
            · exact a6 hh
          · rw [hext.2 _ a5]
            exact a7
        · subst he1
          refine ⟨?_, ?_, fun he => hki he.symm, hidf1.1,
            lt_of_lt_of_le hidf1.2.1 hext2.1, ?_, ?_⟩
          · rcases Finset.mem_union.1 e1 with hI | hH
            · exact Finset.mem_union_left _ hI
            · exact Finset.mem_union_right _ (Finset.mem_insert_of_mem hH)
          · exact Finset.mem_union_left _ (Finset.mem_insert_self _ _)
          · intro habs
            rcases Finset.mem_insert.1 habs with he | hh
            · exact hid1nek he
            · exact hidf1.2.2.1 hh
          · rw [hext2.2 _ hidf1.2.1]
            exact hidf1.2.2.2
      · subst he2
        refine ⟨Finset.mem_union_right _ (Finset.mem_insert_self _ _),
          ?_, hko, hidf2.1, hidf2.2.1, ?_, hidf2.2.2.2⟩
        · rcases Finset.mem_union.1 e2 with hH | hO
          · exact Finset.mem_union_left _ (Finset.mem_insert_of_mem hH)
          · exact Finset.mem_union_right _ hO
        · intro habs
          rcases Finset.mem_insert.1 habs with he | hh
          · exact hid2nek he
          · exact hidf2.2.2.1 hh
    · -- routes, peeled stage by stage
      have hins : ∀ rv : Nat × Finset Nat,
          rv ∈ alUpdate g.routes conn.1 (fun s => insert conn.2 s) →
          rv.1 ∈ g.input_nodes ∪ g.hidden_nodes ∧
          (∀ o ∈ rv.2, o ∈ g.hidden_nodes ∪ g.output_nodes) ∧
          rv.1 ∉ rv.2 := by
        intro rv hrv
        rcases alUpdate_mem _ _ _ _ hrv with hold | ⟨v, hv, he⟩
        · exact h5 rv hold
        · subst he
          obtain ⟨k1, k2, k3⟩ := h5 (conn.1, v) hv
          refine ⟨k1, ?_, ?_⟩
          · intro o ho
            rcases Finset.mem_insert.1 ho with he | ho
            · rw [he]
              exact e2
            · exact k2 o ho
          · intro habs
            rcases Finset.mem_insert.1 habs with he | habs
            · exact e3 he
            · exact k3 habs
      have hmapstage : ∀ rv : Nat × Finset Nat,
          rv ∈ (alUpdate g.routes conn.1
            (fun s => insert conn.2 s)).map
              (fun p => (p.1, insert k p.2)) →
          rv.1 ∈ g.input_nodes ∪ insert k g.hidden_nodes ∧
          (∀ o ∈ rv.2, o ∈ insert k g.hidden_nodes ∪ g.output_nodes) ∧
          rv.1 ∉ rv.2 := by
        intro rv hrv
        rcases List.mem_map.1 hrv with ⟨q, hq, he⟩
        obtain ⟨k1, k2, k3⟩ := hins q hq
        subst he
        refine ⟨?_, ?_, ?_⟩
        · rcases Finset.mem_union.1 k1 with hI | hH
          · exact Finset.mem_union_left _ hI
          · exact Finset.mem_union_right _ (Finset.mem_insert_of_mem hH)
        · intro o ho
          rcases Finset.mem_insert.1 ho with he | ho
          · rw [he]
            exact Finset.mem_union_left _ (Finset.mem_insert_self _ _)
          · rcases Finset.mem_union.1 (k2 o ho) with hH | hO
            · exact Finset.mem_union_left _ (Finset.mem_insert_of_mem hH)
            · exact Finset.mem_union_right _ hO
        · intro habs
          rcases Finset.mem_insert.1 habs with he | hh
          · rcases Finset.mem_union.1 k1 with hI | hH
            · have := hIlt _ hI
              have := e4
              omega
            · rw [he] at hH
              exact e6 hH
          · exact k3 hh
      have hsetstage : ∀ rv : Nat × Finset Nat,
          rv ∈ alSet ((alUpdate g.routes conn.1
            (fun s => insert conn.2 s)).map
              (fun p => (p.1, insert k p.2))) k
            (g.hidden_nodes ∪ g.output_nodes) →
          rv.1 ∈ g.input_nodes ∪ insert k g.hidden_nodes ∧
          (∀ o ∈ rv.2, o ∈ insert k g.hidden_nodes ∪ g.output_nodes) ∧
          rv.1 ∉ rv.2 := by
        intro rv hrv
        rcases alSet_mem _ _ _ _ hrv with hold | he
        · exact hmapstage rv hold
        · subst he
          refine ⟨Finset.mem_union_right _ (Finset.mem_insert_self _ _),
            ?_, ?_⟩
          · intro o ho
            rcases Finset.mem_union.1 ho with hH | hO
            · exact Finset.mem_union_left _ (Finset.mem_insert_of_mem hH)
            · exact Finset.mem_union_right _ hO
          · intro habs
            rcases Finset.mem_union.1 habs with hH | hO
            · exact e6 hH
            · exact hkO hO
      intro rv hrv
      rcases alUpdate_mem _ _ _ _ hrv with hrv1 | ⟨v, hv, he⟩
      · rcases alUpdate_mem _ _ _ _ hrv1 with hrv2 | ⟨v, hv, he⟩
        · exact hsetstage rv hrv2
        · subst he
          obtain ⟨k1, k2, k3⟩ := hsetstage (conn.1, v) hv
          exact ⟨k1, fun o ho => k2 o (Finset.mem_of_mem_erase ho),
            fun habs => k3 (Finset.mem_of_mem_erase habs)⟩
      · subst he
        rcases alUpdate_mem _ _ _ _ hv with hrv2 | ⟨v', hv', he'⟩
        · obtain ⟨k1, k2, k3⟩ := hsetstage (k, v) hrv2
          exact ⟨k1, fun o ho => k2 o (Finset.mem_of_mem_erase ho),
            fun habs => k3 (Finset.mem_of_mem_erase habs)⟩
        · exact absurd (congrArg Prod.fst he') hki
    · -- routes keys stay duplicate-free
      have hmk : ((alUpdate g.routes conn.1
          (fun s => insert conn.2 s)).map
            (fun p => (p.1, insert k p.2))).map Prod.fst =
          (alUpdate g.routes conn.1
            (fun s => insert conn.2 s)).map Prod.fst := by
        rw [List.map_map]
        rfl
      have hnd1 : ((alUpdate g.routes conn.1
          (fun s => insert conn.2 s)).map
            (fun p => (p.1, insert k p.2))).map Prod.fst |>.Nodup := by
        rw [hmk, alUpdate_keys]
        exact h6
      have hnd2 := (alSet_keys_nodup _ k
        (g.hidden_nodes ∪ g.output_nodes) hnd1).1
      rw [alUpdate_keys, alUpdate_keys]
      exact hnd2

theorem enumFrom_mem_snd {α : Type} (l : List α) (n : Nat)
    (p : Nat × α) (h : p ∈ l.enumFrom n) : p.2 ∈ l := by
  induction l generalizing n with
  | nil => simp at h
  | cons a t ih =>
      rw [List.enumFrom_cons, List.mem_cons] at h
      rcases h with h | h
      · rw [h]
        exact List.mem_cons_self _ _
      · exact List.mem_cons_of_mem _ (ih _ h)

/-- The weight-mutation step changes only weights, so it preserves the
genotype invariant. -/
theorem weight_step_inv (ni no : Nat) (st : Genetics) (g : Genotype)
    (ρ : MutRand) (hgt : GTInv ni no st g) :
    GTInv ni no st { g with genes := (g.genes.enum).map (fun p =>
      if ρ.per_gene p.1 < 9/10 then
        (p.2.1, p.2.2.random_shift (ρ.shift p.1))
      else (p.2.1, p.2.2.randomize (ρ.shift p.1))) } := by
  obtain ⟨h1, h2, h3, h4, h5, h6⟩ := hgt
  refine ⟨h1, h2, h3, ?_, h5, h6⟩
  intro kv hkv
  rcases List.mem_map.1 hkv with ⟨q, hq, he⟩
  have hqmem : q.2 ∈ g.genes := enumFrom_mem_snd g.genes 0 q hq
  obtain ⟨a1, a2, a3, a4, a5, a6, a7⟩ := h4 q.2 hqmem
  by_cases hpg : ρ.per_gene q.1 < 9/10
  · rw [if_pos hpg] at he
    subst he
    exact ⟨a1, a2, a3, a4, a5, a6, a7⟩
  · rw [if_neg hpg] at he
    subst he
    exact ⟨a1, a2, a3, a4, a5, a6, a7⟩

/-- `mutate` preserves both invariants. -/
theorem mutate_inv (ni no : Nat) (st : Genetics) (g : Genotype)
    (ρ : MutRand) (wr cr nr : ℚ)
    (hreg : RegInvN ni no st) (hgt : GTInv ni no st g) :
    RegInvN ni no (Genotype.mutate st g ρ wr cr nr).1 ∧
    GTInv ni no (Genotype.mutate st g ρ wr cr nr).1
      (Genotype.mutate st g ρ wr cr nr).2 ∧
    Genetics.ext st (Genotype.mutate st g ρ wr cr nr).1 := by
  have hgt1 : GTInv ni no st (if ρ.r_weight < wr then
      { g with genes := (g.genes.enum).map (fun p =>
        if ρ.per_gene p.1 < 9/10 then
          (p.2.1, p.2.2.random_shift (ρ.shift p.1))
        else (p.2.1, p.2.2.randomize (ρ.shift p.1))) } else g) := by
    by_cases hw : ρ.r_weight < wr
    · rw [if_pos hw]
      exact weight_step_inv ni no st g ρ hgt
    · rw [if_neg hw]
      exact hgt
  set g1 := (if ρ.r_weight < wr then
      { g with genes := (g.genes.enum).map (fun p =>
        if ρ.per_gene p.1 < 9/10 then
          (p.2.1, p.2.2.random_shift (ρ.shift p.1))
        else (p.2.1, p.2.2.randomize (ρ.shift p.1))) } else g) with hg1
  have hs1 : RegInvN ni no (if ρ.r_conn < cr then
        g1.add_connection st ρ.conn_c1 ρ.conn_c2 ρ.conn_r
      else (st, g1)).1 ∧
      GTInv ni no (if ρ.r_conn < cr then
        g1.add_connection st ρ.conn_c1 ρ.conn_c2 ρ.conn_r
      else (st, g1)).1 (if ρ.r_conn < cr then
        g1.add_connection st ρ.conn_c1 ρ.conn_c2 ρ.conn_r
      else (st, g1)).2 ∧
      Genetics.ext st (if ρ.r_conn < cr then
        g1.add_connection st ρ.conn_c1 ρ.conn_c2 ρ.conn_r
      else (st, g1)).1 := by
    by_cases hcn : ρ.r_conn < cr
    · rw [if_pos hcn]
      exact add_connection_inv ni no st g1 ρ.conn_c1 ρ.conn_c2 ρ.conn_r
        hreg hgt1
    · rw [if_neg hcn]
      exact ⟨hreg, hgt1, Genetics.ext_refl st⟩
  set S1 := (if ρ.r_conn < cr then
      g1.add_connection st ρ.conn_c1 ρ.conn_c2 ρ.conn_r
    else (st, g1)) with hS1
  have hunf : Genotype.mutate st g ρ wr cr nr =
      (if S1.2.genes = [] then S1
       else if ρ.r_node < nr then
         Genotype.intersect_connection S1.1 S1.2 ρ.node_c
       else S1) := rfl
  rw [hunf]
  by_cases hemp : S1.2.genes = []
  · rw [if_pos hemp]
    exact hs1
  · rw [if_neg hemp]
    by_cases hnd : ρ.r_node < nr
    · rw [if_pos hnd]
      have := intersect_connection_inv ni no S1.1 S1.2 ρ.node_c
        hs1.1 hs1.2.1
      exact ⟨this.1, this.2.1, Genetics.ext_trans hs1.2.2 this.2.2⟩
    · rw [if_neg hnd]
      exact hs1

/-- The gene-replacement step of crossover changes only weights of the
dominant parent's copied genes, so it preserves the genotype invariant. -/
theorem repl_step_inv (ni no : Nat) (st : Genetics) (dom rec0 : Genotype)
    (coin : Nat × Nat → ℚ) (hgt : GTInv ni no st dom) :
    GTInv ni no st { dom.copy with
      genes := dom.copy.genes.map (fun p =>
        match alGet? rec0.genes p.1 with
        | some g2 => if coin p.1 < 1/2 then
            (p.1, { p.2 with weight := g2.weight }) else p
        | none => p) } := by
  rw [Genotype.copy_eq]
  obtain ⟨h1, h2, h3, h4, h5, h6⟩ := hgt
  refine ⟨h1, h2, h3, ?_, h5, h6⟩
  intro kv hkv
  rcases List.mem_map.1 hkv with ⟨q, hq, he⟩
  obtain ⟨a1, a2, a3, a4, a5, a6, a7⟩ := h4 q hq
  rcases halg : alGet? rec0.genes q.1 with _ | g2
  · rw [halg] at he
    simp only at he
    subst he
    exact ⟨a1, a2, a3, a4, a5, a6, a7⟩
  · rw [halg] at he
    simp only at he
    by_cases hcoin : coin q.1 < 1/2
    · rw [if_pos hcoin] at he
      subst he
      exact ⟨a1, a2, a3, a4, a5, a6, a7⟩
    · rw [if_neg hcoin] at he
      subst he
      exact ⟨a1, a2, a3, a4, a5, a6, a7⟩

/-- Crossover preserves both invariants; the child genotype satisfies the
genotype invariant against the updated registry. -/
theorem mate_inv (ni no : Nat) (st : Genetics) (g1 g2 : Genotype)
    (f1 f2 : Option ℚ) (coin : Nat × Nat → ℚ) (ρ : MutRand)
    (hreg : RegInvN ni no st)
    (hgt1 : GTInv ni no st g1) (hgt2 : GTInv ni no st g2) :
    RegInvN ni no (Entity.mate st ⟨g1, f1⟩ ⟨g2, f2⟩ coin ρ).1 ∧
    GTInv ni no (Entity.mate st ⟨g1, f1⟩ ⟨g2, f2⟩ coin ρ).1
      (Entity.mate st ⟨g1, f1⟩ ⟨g2, f2⟩ coin ρ).2.genotype ∧
    Genetics.ext st (Entity.mate st ⟨g1, f1⟩ ⟨g2, f2⟩ coin ρ).1 := by
  cases hfit : fitGt (⟨g1, f1⟩ : Entity).fitness
    (⟨g2, f2⟩ : Entity).fitness
  · have hunf : Entity.mate st ⟨g1, f1⟩ ⟨g2, f2⟩ coin ρ =
        ((Genotype.mutate_default st
          { g2.copy with genes := g2.copy.genes.map (fun p =>
              match alGet? g1.genes p.1 with
              | some gg => if coin p.1 < 1/2 then
                  (p.1, { p.2 with weight := gg.weight }) else p
              | none => p) } ρ).1,
         ⟨(Genotype.mutate_default st
          { g2.copy with genes := g2.copy.genes.map (fun p =>
              match alGet? g1.genes p.1 with
              | some gg => if coin p.1 < 1/2 then
                  (p.1, { p.2 with weight := gg.weight }) else p
              | none => p) } ρ).2, none⟩) := by
      rw [Entity.mate, hfit]
      rfl
    rw [hunf]
    exact mutate_inv ni no st _ ρ (8/10) (1/20) (3/100) hreg
      (repl_step_inv ni no st g2 g1 coin hgt2)
  · have hunf : Entity.mate st ⟨g1, f1⟩ ⟨g2, f2⟩ coin ρ =
        ((Genotype.mutate_default st
          { g1.copy with genes := g1.copy.genes.map (fun p =>
              match alGet? g2.genes p.1 with
              | some gg => if coin p.1 < 1/2 then
                  (p.1, { p.2 with weight := gg.weight }) else p
              | none => p) } ρ).1,
         ⟨(Genotype.mutate_default st
          { g1.copy with genes := g1.copy.genes.map (fun p =>
              match alGet? g2.genes p.1 with
              | some gg => if coin p.1 < 1/2 then
                  (p.1, { p.2 with weight := gg.weight }) else p
              | none => p) } ρ).2, none⟩) := by
      rw [Entity.mate, hfit]
      rfl
    rw [hunf]
    exact mutate_inv ni no st _ ρ (8/10) (1/20) (3/100) hreg
      (repl_step_inv ni no st g1 g2 coin hgt1)

/-- A founder genotype satisfies the genotype invariant against any
registry. -/
theorem founder_inv (ni no : Nat) (reg : Genetics) :
    GTInv ni no reg (Genotype.init ni no) := by
  refine ⟨rfl, rfl, ?_, ?_, ?_, ?_⟩
  · intro x hx
    exact absurd hx (Finset.not_mem_empty x)
  · intro kv hkv
    exact absurd hkv (List.not_mem_nil kv)
  · intro rv hrv
    rcases List.mem_map.1 hrv with ⟨b, hb, he⟩
    subst he
    refine ⟨?_, ?_, ?_⟩
    · exact Finset.mem_union_left _ (Finset.mem_range.2 (List.mem_range.1 hb))
    · intro o ho
      exact Finset.mem_union_right _ ho
    · intro hmem
      have hb' := List.mem_range.1 hb
      have := Finset.mem_Ico.1 hmem
      omega
  · show ((List.map (fun b => (b, Finset.Ico ni (ni + no)))
      (List.range ni)).map Prod.fst).Nodup
    rw [List.map_map]
    have hco : (Prod.fst ∘ fun b => (b, Finset.Ico ni (ni + no))) =
        (id : Nat → Nat) := rfl
    rw [hco, List.map_id]
    exact List.nodup_range ni

/-- The shared state of a NEAT run: the process-wide innovation registry
(static `Gene.genetics` / `Gene.innovation`) and the pool of all genotypes
created so far. -/
structure SysSt where
  reg : Genetics
  pool : List Genotype

/-- All states reachable by the program: the registry starts at
`input_num + output_num` (set by `NEAT.__init__`), and new genotypes enter
the pool only via founder creation, `copy`, `add_connection`,
`intersect_connection`, `mutate` or crossover (`Entity.mate`), each applied
to pool members with arbitrary random draws. -/
inductive Reach (ni no : Nat) : SysSt → Prop where
  | init : Reach ni no ⟨⟨fun _ => [], fun _ => none, ni + no⟩, []⟩
  | founder (s : SysSt) (h : Reach ni no s) :
      Reach ni no ⟨s.reg, Genotype.init ni no :: s.pool⟩
  | copy (s : SysSt) (g : Genotype) (h : Reach ni no s) (hg : g ∈ s.pool) :
      Reach ni no ⟨s.reg, g.copy :: s.pool⟩
  | addconn (s : SysSt) (g : Genotype) (c1 c2 : Nat) (r : ℚ)
      (h : Reach ni no s) (hg : g ∈ s.pool) :
      Reach ni no ⟨(g.add_connection s.reg c1 c2 r).1,
        (g.add_connection s.reg c1 c2 r).2 :: s.pool⟩
  | split (s : SysSt) (g : Genotype) (c : Nat)
      (h : Reach ni no s) (hg : g ∈ s.pool) :
      Reach ni no ⟨(Genotype.intersect_connection s.reg g c).1,
        (Genotype.intersect_connection s.reg g c).2 :: s.pool⟩
  | mutate (s : SysSt) (g : Genotype) (ρ : MutRand) (wr cr nr : ℚ)
      (h : Reach ni no s) (hg : g ∈ s.pool) :
      Reach ni no ⟨(Genotype.mutate s.reg g ρ wr cr nr).1,
        (Genotype.mutate s.reg g ρ wr cr nr).2 :: s.pool⟩
  | crossover (s : SysSt) (g1 g2 : Genotype) (f1 f2 : Option ℚ)
      (coin : Nat × Nat → ℚ) (ρ : MutRand)
      (h : Reach ni no s) (hg1 : g1 ∈ s.pool) (hg2 : g2 ∈ s.pool) :
      Reach ni no ⟨(Entity.mate s.reg ⟨g1, f1⟩ ⟨g2, f2⟩ coin ρ).1,
        (Entity.mate s.reg ⟨g1, f1⟩ ⟨g2, f2⟩ coin ρ).2.genotype :: s.pool⟩

/-- Every reachable state satisfies the registry invariant, and every
genotype in its pool satisfies the genotype invariant. -/
theorem Reach_inv (ni no : Nat) (s : SysSt) (h : Reach ni no s) :
    RegInvN ni no s.reg ∧ ∀ g ∈ s.pool, GTInv ni no s.reg g := by
  induction h with
  | init =>
      refine ⟨⟨le_refl _, ?_⟩, ?_⟩
      · intro p x hx
        exact absurd hx (List.not_mem_nil x)
      · intro g hg
        exact absurd hg (List.not_mem_nil g)
  | founder s hs ih =>
      refine ⟨ih.1, ?_⟩
      intro g hg
      rcases List.mem_cons.1 hg with he | hm
      · rw [he]
        exact founder_inv ni no s.reg
      · exact ih.2 g hm
  | copy s g hs hg ih =>
      refine ⟨ih.1, ?_⟩
      intro g' hg'
      rcases List.mem_cons.1 hg' with he | hm
      · rw [he, Genotype.copy_eq]
        exact ih.2 g hg
      · exact ih.2 g' hm
  | addconn s g c1 c2 r hs hg ih =>
      have H := add_connection_inv ni no s.reg g c1 c2 r ih.1 (ih.2 g hg)
      refine ⟨H.1, ?_⟩
      intro g' hg'
      rcases List.mem_cons.1 hg' with he | hm
      · rw [he]
        exact H.2.1
      · exact GTInv_mono ni no s.reg _ g' H.2.2 (ih.2 g' hm)
  | split s g c hs hg ih =>
      have H := intersect_connection_inv ni no s.reg g c ih.1 (ih.2 g hg)
      refine ⟨H.1, ?_⟩
      intro g' hg'
      rcases List.mem_cons.1 hg' with he | hm
      · rw [he]
        exact H.2.1
      · exact GTInv_mono ni no s.reg _ g' H.2.2 (ih.2 g' hm)
  | mutate s g ρ wr cr nr hs hg ih =>
      have H := mutate_inv ni no s.reg g ρ wr cr nr ih.1 (ih.2 g hg)
      refine ⟨H.1, ?_⟩
      intro g' hg'
      rcases List.mem_cons.1 hg' with he | hm
      · rw [he]
        exact H.2.1
      · exact GTInv_mono ni no s.reg _ g' H.2.2 (ih.2 g' hm)
  | crossover s g1 g2 f1 f2 coin ρ hs hg1 hg2 ih =>
      have H := mate_inv ni no s.reg g1 g2 f1 f2 coin ρ ih.1
        (ih.2 g1 hg1) (ih.2 g2 hg2)
      refine ⟨H.1, ?_⟩
      intro g' hg'
      rcases List.mem_cons.1 hg' with he | hm
      · rw [he]
        exact H.2.1
      · exact GTInv_mono ni no s.reg _ g' H.2.2 (ih.2 g' hm)

/-- C10: For every genotype reachable from founder creation by any sequence
of copy, mutate, addConnectionMutation, splitConnectionMutation and
crossover operations, every gene `(i, o)` satisfies: `i` is an input or
hidden node and never an output node, `o` is a hidden or output node and
never an input node, and `i ≠ o` — no connection leaves an output node,
enters an input node, or forms a self-loop. -/
theorem reachable_gene_endpoints (ni no : Nat) (s : SysSt)
    (h : Reach ni no s) (g : Genotype) (hg : g ∈ s.pool)
    (kv : (Nat × Nat) × Gene) (hkv : kv ∈ g.genes) :
    (kv.1.1 ∈ g.input_nodes ∪ g.hidden_nodes ∧
      kv.1.1 ∉ g.output_nodes) ∧
    (kv.1.2 ∈ g.hidden_nodes ∪ g.output_nodes ∧
      kv.1.2 ∉ g.input_nodes) ∧
    kv.1.1 ≠ kv.1.2 := by
  obtain ⟨hreg, hpool⟩ := Reach_inv ni no s h
  obtain ⟨h1, h2, h3, h4, h5, h6⟩ := hpool g hg
  obtain ⟨g1, g2, g3, _, _, _, _⟩ := h4 kv hkv
  refine ⟨⟨g1, ?_⟩, ⟨g2, ?_⟩, g3⟩
  · intro hout
    rw [h2, Finset.mem_Ico] at hout
    rcases Finset.mem_union.1 g1 with hi | hh
    · rw [h1, Finset.mem_range] at hi
      omega
    · have := h3 _ hh
      omega
  · intro hin
    rw [h1, Finset.mem_range] at hin
    rcases Finset.mem_union.1 g2 with hh | ho
    · have := h3 _ hh
      omega
    · rw [h2, Finset.mem_Ico] at ho
      omega

theorem reachable_gene_endpoints_witness :
    (0 ∉ (((Genotype.init 2 1).add_connection
      ⟨fun _ => [], fun _ => none, 2 + 1⟩ 0 0 0).2).output_nodes) ∧
    (2 ∉ (((Genotype.init 2 1).add_connection
      ⟨fun _ => [], fun _ => none, 2 + 1⟩ 0 0 0).2).input_nodes) ∧
    ((0 : Nat) ≠ 2) := by
  have hr : Reach 2 1 ⟨((Genotype.init 2 1).add_connection
      ⟨fun _ => [], fun _ => none, 2 + 1⟩ 0 0 0).1,
      ((Genotype.init 2 1).add_connection
      ⟨fun _ => [], fun _ => none, 2 + 1⟩ 0 0 0).2 ::
        [Genotype.init 2 1]⟩ :=
    Reach.addconn ⟨⟨fun _ => [], fun _ => none, 2 + 1⟩,
        [Genotype.init 2 1]⟩
      (Genotype.init 2 1) 0 0 0
      (Reach.founder ⟨⟨fun _ => [], fun _ => none, 2 + 1⟩, []⟩ Reach.init)
      (List.mem_cons_self _ _)
  have hmem : (((0, 2), (⟨3, 0 - 1/2⟩ : Gene)) :
      (Nat × Nat) × Gene) ∈ (((Genotype.init 2 1).add_connection
      ⟨fun _ => [], fun _ => none, 2 + 1⟩ 0 0 0).2).genes :=
    List.mem_cons_self _ _
  have h := reachable_gene_endpoints 2 1 _ hr
    (((Genotype.init 2 1).add_connection
      ⟨fun _ => [], fun _ => none, 2 + 1⟩ 0 0 0).2)
    (List.mem_cons_self _ _)
    ((0, 2), (⟨3, 0 - 1/2⟩ : Gene)) hmem
  exact ⟨h.1.2, h.2.1.2, h.2.2⟩

end NEAT
